import Mathlib

/-!
Verification development for the csmake-system-build partitioning modules.

The central object is a shallow embedding of
`CsmakeModules/SystemBuildMsdosPartitions.py` (class
`SystemBuildMsdosPartitions`): its `_doPartitioning` driver, the
`_create*Partition` helpers, `_createPartitionEntry`, the swap post-pass,
and `_getRequestedPercentage`.  The mount-point ordering of
`CsmakeModules/SystemBuildFileSystem.py` (`_createFileSystemRecord`) is
embedded as well.

Modelling conventions:
  - Python ints are `Int` (the `-1` sentinels of `extensionStart` /
    `extensionEnd` are kept literally); counts are `Nat`.
  - Every external `subprocess` invocation is recorded in a trace of
    `Call` values.  Exit codes are supplied by an oracle
    `Nat -> Bool` indexed by the position of the call in the trace
    (`true` = exit code 0).  `subprocess.check_call` failure raises
    `CalledProcessError`, which `_doPartitioning` catches and turns into
    a failed step; plain `subprocess.call` failures only log warnings.
  - `self.systemInstance._getSizeInBytes` lives in the system object
    produced by an earlier stage (outside this repository's partitioning
    core), so it enters the model as a function parameter
    `sizer : String -> Option Nat` (`none` models the `ValueError` a
    malformed size raises).
  - The environment bookkeeping of `_doPartitioning` (undefined system /
    undefined disk / partitions-already-defined pre-checks) precedes all
    behavior the claims are about; the embedding starts from a resolved
    disk entry (`device`, `size`, `fstab-id`).
  - Python dict-valued state (`partEntry`, `swaps`) is modelled with
    association lists; `part_<name>` option keys are unique, so dict
    assignment is list append.
  - Exact rational arithmetic stands in for the Python float expression
    `round(requestedSize*100.0/self.disksize)` (round half away from
    zero, the Python 2 rule).
-/

namespace CsmakeSystemBuild

/-- Strict lexicographic order on character lists by code point, the
comparison Python applies to the order-token strings in
`partitions.sort(key=lambda x: x[1])`. -/
def charsLt : List Char → List Char → Bool
  | _, [] => false
  | [], _ :: _ => true
  | a :: as, b :: bs =>
    if a.toNat < b.toNat then true
    else if b.toNat < a.toNat then false
    else charsLt as bs

/-- Lexicographic order on strings (Python string `<`). -/
def tokLt (a b : String) : Bool := charsLt a.data b.data

/-- Test whether the first list is a leading segment of the second. -/
def charsLead : List Char → List Char → Bool
  | [], _ => true
  | _ :: _, [] => false
  | a :: as, b :: bs => a == b && charsLead as bs

/-- Test whether the first list occurs contiguously inside the second:
the semantics of the Python expression `needle in haystack` on strings,
used by `_createPartitionEntry` as `'loop' in device`. -/
def charsInside (p : List Char) : List Char → Bool
  | [] => charsLead p []
  | c :: cs => charsLead p (c :: cs) || charsInside p cs

/-- Python `needle in haystack` for strings. -/
def pyIn (needle hay : String) : Bool := charsInside needle.data hay.data

/-- Python `text.split(sep)` for a one-character separator: splits at
every occurrence, keeping empty pieces, so `"/".split("/")` gives two
empty pieces.  Used by `SystemBuildFileSystem` as `x.split('/')`. -/
def splitChars (sep : Char) : List Char → List (List Char)
  | [] => [[]]
  | c :: cs =>
    if c = sep then [] :: splitChars sep cs
    else
      match splitChars sep cs with
      | [] => [[c]]
      | g :: gs => (c :: g) :: gs

/-- Stable insertion of `x` into a list sorted by the strict order `lt`:
`x` passes every element strictly below it and stops in front of the
first element not below it, so elements with equal keys keep their
original relative order. -/
def insByLt (lt : α → α → Bool) (x : α) : List α → List α
  | [] => [x]
  | y :: ys => if lt y x then y :: insByLt lt x ys else x :: y :: ys

/-- Stable sort by the strict order `lt`.  Python's `list.sort` is a
stable sort, and any two stable sorts agree, so this insertion sort
computes exactly the list `list.sort(key=...)` produces. -/
def sortStably (lt : α → α → Bool) : List α → List α
  | [] => []
  | x :: xs => insByLt lt x (sortStably lt xs)

/-- A parsed `part_<name> = <order>, <size>, <type>[, <flags>]` option:
`partition = [name, order, size, type, flag...]` in the source.  The
source strips the fields and drops empty ones; declarations with fewer
than the four positional fields crash Python with an uncaught
`IndexError`, so the embedding covers the four-field-and-up shape. -/
structure Decl where
  name : String
  order : String
  size : String
  typ : String
  flags : List String
deriving Repr, DecidableEq

/-- Sort order of `partitions.sort(key=lambda x: x[1])`: compare the
order tokens only. -/
def declLt (a b : Decl) : Bool := tokLt a.order b.order

/-- One recorded external tool invocation (a `subprocess` call).
`mkpart` stores the extent bounds as the numeric percentages the source
computes; the source renders a start of 0 as the sector literal
`"2048s"` (`PART_FIRST_START`) and every other bound as `"<n>%"` -
display only, so the trace keeps the numbers. -/
inductive Call where
  | mklabel (device tableType : String)
  | mkpart (device parttype : String) (fsArg : Option String)
      (startP endP : Int)
  | nameCall (device : String) (number : Nat) (pname : String)
  | setFlag (device : String) (number : Nat) (flag : String)
  | sfdiskType (device : String) (number : Nat) (typ : String)
  | partprobe (device : String)
  | settle
  | mkswap (label device : String)
deriving Repr, DecidableEq

/-- The per-partition dictionary `_createPartitionEntry` stores into
`diskEntry['partitions']`: `number`, `size`, `device`, `fstab-id`. -/
structure PartRecord where
  number : Nat
  size : String
  device : String
  fstabId : Option String
deriving Repr, DecidableEq

/-- Fatal outcomes of `_doPartitioning`.  `log.failed(); return None`
paths and uncaught exceptions are both modelled as errors carrying the
state at the moment of failure (the shared `partitions` dict keeps the
entries already made). -/
inductive RunError where
  /-- a must-succeed `subprocess.check_call` exited non-zero
  (`CalledProcessError`, caught and turned into `log.failed`). -/
  | toolFailure
  /-- `ValueError` during per-partition processing (malformed size
  request inside `_getSizeInBytes`), caught and turned into
  `log.failed`. -/
  | valueError
  /-- logical or extended declaration on a scheme with
  `PART_LOGICAL_EXTENDED_ALLOWED` false. -/
  | logicalNotAllowed
  /-- order token ends in `L` but is not shaped `<ex>E:<part>L`. -/
  | badLogicalFormat
  /-- a fifth primary or extended declaration on the 4-slot scheme. -/
  | capacity
  /-- order token ends in `E` but has fewer than 2 characters. -/
  | badExtendedFormat
  /-- a second extended declaration. -/
  | secondExtended
  /-- `SystemError` raised by `_createLogicalPartition` when no extended
  partition exists (`extensionStart == -1`). -/
  | logicalWithoutExtended
deriving Repr, DecidableEq

/-- The mutable state of one `_doPartitioning` invocation: the instance
attributes `startPercent`, `extensionStart`, `extensionEnd`, `swaps`,
`partEntry`, plus the local counters `primary` and `logical`, the
`diskEntry['swaps']` output list, the trace of tool calls issued so far
and a count of warnings logged. -/
structure St where
  startPercent : Int
  extensionStart : Int
  extensionEnd : Int
  primaryC : Nat
  logicalC : Nat
  swaps : List (String × Nat × Decl)
  entries : List (String × PartRecord)
  diskSwaps : List (String × PartRecord)
  trace : List Call
  warnings : Nat
deriving Repr, DecidableEq

/-- The fixed inputs of one invocation: the resolved disk entry
(`device`, `size`, `fstab-id`), the external size parser of the system
object, and the exit-status oracle for tool calls. -/
structure Ctx where
  device : String
  disksize : Nat
  diskFstabId : String
  sizer : String → Option Nat
  oracle : Nat → Bool

/-- Record one tool call and obtain its exit status from the oracle
(indexed by the call's position in the trace). -/
def emit (ctx : Ctx) (c : Call) (s : St) : St × Bool :=
  ({ s with trace := s.trace ++ [c] }, ctx.oracle s.trace.length)

/-- Bump the warning counter (a `self.log.warning` call). -/
def warn (s : St) : St := { s with warnings := s.warnings + 1 }

/-- The class constant `PART_FSTYPES` of `SystemBuildMsdosPartitions`. -/
def PART_FSTYPES : List (String × String) :=
  [ ("ext2", "ext2"), ("linux", "ext2"), ("fat16", "fat16"),
    ("fat32", "fat32"), ("vfat", "fat32"), ("HFS", "HFS"),
    ("NTFS", "NTFS"), ("linux-swap", "linux-swap"),
    ("reiserfs", "reiserfs"), ("ufs", "ufs") ]

/-- Class constant `PART_TYPE = "msdos"`. -/
def PART_TYPE : String := "msdos"

/-- Class constant `PART_PRIMARY_PARTITIONS = 4`. -/
def PART_PRIMARY_PARTITIONS : Nat := 4

/-- Class constant `PART_LOGICAL_EXTENDED_ALLOWED = True`. -/
def PART_LOGICAL_EXTENDED_ALLOWED : Bool := true

/-- Result of `_getRequestedPercentage`: the percentage plus whether the
too-small warning was logged. -/
structure PctOut where
  percent : Nat
  warned : Bool
deriving Repr, DecidableEq

/-- Exact-arithmetic value of `int(round(requestedSize*100.0/disksize))`
for nonnegative operands: round half away from zero of the rational
`bytes*100/disksize`, i.e. `(200*bytes + disksize) / (2*disksize)` in
integer division. -/
def pctRound (bytes disksize : Nat) : Nat :=
  (200 * bytes + disksize) / (2 * disksize)

/-- `_getRequestedPercentage`, past the external `_getSizeInBytes` call:
rounds the byte count to a whole percentage of the disk and lifts a zero
result to 1 with a warning. -/
def getRequestedPercentage (bytes disksize : Nat) : PctOut :=
  let result := pctRound bytes disksize
  if result = 0 then ⟨1, true⟩ else ⟨result, false⟩

/-- The loop body of `_createNextPartition` applying each flag with its
own `parted ... set <number> <flag> on` call; `subprocess.check_call`
aborts at the first non-zero exit. -/
def applyFlags (ctx : Ctx) (number : Nat) :
    List String → St → Except (RunError × St) St
  | [], s => Except.ok s
  | f :: fs, s =>
    let (s1, ok1) := emit ctx (Call.setFlag ctx.device number f) s
    if ok1 then applyFlags ctx number fs s1
    else Except.error (RunError.toolFailure, s1)

/-- `_editPartitionWithSfdisk`: a plain `subprocess.call`; a non-zero
exit only logs a warning. -/
def editPartitionWithSfdisk (ctx : Ctx) (number : Nat) (p : Decl)
    (s : St) : St :=
  let (s1, ok1) := emit ctx (Call.sfdiskType ctx.device number p.typ) s
  if ok1 then s1 else warn s1

/-- `_createNextPartition`: resolve the parted filesystem argument, make
the partition (must-succeed), name it (best-effort, result ignored),
apply the flags (each one `check_call`), fall back to sfdisk for
unmapped type tokens (best-effort), and register swap partitions. -/
def createNextPartition (ctx : Ctx) (number : Nat) (parttype : String)
    (p : Decl) (startP endP : Int) (s : St) : Except (RunError × St) St :=
  let mapped := List.lookup p.typ PART_FSTYPES
  let extFlag := parttype == "extended"
  let fstype := if extFlag then "ext2" else mapped.getD ("ext2")
  let callsfdisk := !extFlag && mapped.isNone
  let fsArg : Option String := if extFlag then none else some fstype
  let (s1, ok1) :=
    emit ctx (Call.mkpart ctx.device parttype fsArg startP endP) s
  if !ok1 then Except.error (RunError.toolFailure, s1) else
  let (s2, _) := emit ctx (Call.nameCall ctx.device number p.name) s1
  match applyFlags ctx number p.flags s2 with
  | Except.error e => Except.error e
  | Except.ok s3 =>
    let s4 := if callsfdisk then editPartitionWithSfdisk ctx number p s3
              else s3
    let s5 :=
      if fstype == "linux-swap" then
        { s4 with swaps := s4.swaps ++ [(ctx.device, number, p)] }
      else s4
    Except.ok s5

/-- `_createPrimaryPartition`: take the next extent starting at
`startPercent`, clamp to the end of the disk with a warning, create the
partition and advance `startPercent`. -/
def createPrimaryPartition (ctx : Ctx) (number : Nat) (p : Decl)
    (s : St) : Except (RunError × St) St :=
  match ctx.sizer p.size with
  | none => Except.error (RunError.valueError, s)
  | some bytes =>
    let pr := getRequestedPercentage bytes ctx.disksize
    let s0 := if pr.warned then warn s else s
    let startP := s0.startPercent
    let endRaw := startP + (pr.percent : Int)
    let endP := if endRaw > 100 then (100 : Int) else endRaw
    let s0 := if endRaw > 100 then warn s0 else s0
    match createNextPartition ctx number ("primary") p startP endP s0 with
    | Except.error e => Except.error e
    | Except.ok s1 => Except.ok { s1 with startPercent := endP }

/-- `_createExtendedPartition`: same extent computation as a primary,
but records the extent in `extensionStart`/`extensionEnd` — and does not
advance `startPercent`. -/
def createExtendedPartition (ctx : Ctx) (number : Nat) (p : Decl)
    (s : St) : Except (RunError × St) St :=
  match ctx.sizer p.size with
  | none => Except.error (RunError.valueError, s)
  | some bytes =>
    let pr := getRequestedPercentage bytes ctx.disksize
    let s0 := if pr.warned then warn s else s
    let startP := s0.startPercent
    let endRaw := startP + (pr.percent : Int)
    let endP := if endRaw > 100 then (100 : Int) else endRaw
    let s0 := if endRaw > 100 then warn s0 else s0
    match createNextPartition ctx number ("extended") p startP endP s0 with
    | Except.error e => Except.error e
    | Except.ok s1 =>
      Except.ok { s1 with extensionStart := startP, extensionEnd := endP }

/-- `_createLogicalPartition`: raises `SystemError` when no extended
partition exists, otherwise allocates from the extended span's cursor,
clamping to `extensionEnd` with a warning, and advances the cursor. -/
def createLogicalPartition (ctx : Ctx) (number : Nat) (p : Decl)
    (s : St) : Except (RunError × St) St :=
  if s.extensionStart = -1 then
    Except.error (RunError.logicalWithoutExtended, s)
  else
    match ctx.sizer p.size with
    | none => Except.error (RunError.valueError, s)
    | some bytes =>
      let pr := getRequestedPercentage bytes ctx.disksize
      let s0 := if pr.warned then warn s else s
      let startP := s0.extensionStart
      let endRaw := startP + (pr.percent : Int)
      let endP := if endRaw > s0.extensionEnd then s0.extensionEnd
                  else endRaw
      let s0 := if endRaw > s0.extensionEnd then warn s0 else s0
      match createNextPartition ctx number ("logical") p startP endP s0 with
      | Except.error e => Except.error e
      | Except.ok s1 => Except.ok { s1 with extensionStart := endP }

/-- The record `_createPartitionEntry` stores: device and fstab strings
get the partition number appended, with a `p` separator when the base
string mentions a loop device; the fstab id is only filled in when the
disk's own fstab id is not already a `KEY=value` style reference
(otherwise the source leaves it `None`, flagged by a TODO). -/
def mkPartitionEntry (part : Decl) (number : Nat)
    (device diskFstabId : String) : PartRecord :=
  let fulldevstring :=
    if number > 0 then
      device ++ (if pyIn ("loop") device then "p" else "") ++
        toString number
    else device
  let fullpartid :=
    if number > 0 then
      diskFstabId ++ (if pyIn ("loop") diskFstabId then "p" else "") ++
        toString number
    else diskFstabId
  let partFstabId : Option String :=
    if pyIn ("=") diskFstabId then none else some fullpartid
  ⟨number, part.size, fulldevstring, partFstabId⟩

/-- `_createPartitionEntry`: append the record to `partEntry` (the
`part_<name>` keys of one section are distinct, so the dict assignment
is an append). -/
def createPartitionEntry (part : Decl) (number : Nat)
    (device diskFstabId : String) (s : St) : St :=
  { s with entries :=
      s.entries ++ [(part.name, mkPartitionEntry part number device diskFstabId)] }

/-- Does the order token classify the declaration as logical
(`part[1][-1] == 'L'`)? -/
def isLogicalTok (t : String) : Bool := t.data.getLast? == some 'L'

/-- Does the order token classify the declaration as extended
(`part[1][-1] == 'E'`, tested only after the logical test fails)? -/
def isExtendedTok (t : String) : Bool := t.data.getLast? == some 'E'

/-- The `<ex>E:<part>L` shape test of the logical branch:
`len(part[1]) < 4 or part[1][1] != 'E' or part[1][2] != ':'` (negated:
the shape is acceptable). -/
def logicalShapeOk (t : String) : Bool :=
  decide (4 ≤ t.data.length) && t.data.get? 1 == some 'E' &&
    t.data.get? 2 == some ':'

/-- One iteration of the declaration loop of `_doPartitioning`:
classify by the last character of the order token, run the class's
checks, create the partition when in build mode, and always emit the
partition record, advancing the class counter. -/
def partStep (ctx : Ctx) (build : Bool) (p : Decl) (s : St) :
    Except (RunError × St) St :=
  if isLogicalTok p.order then
    if !PART_LOGICAL_EXTENDED_ALLOWED then
      Except.error (RunError.logicalNotAllowed, s)
    else if !logicalShapeOk p.order then
      Except.error (RunError.badLogicalFormat, s)
    else
      match (if build then createLogicalPartition ctx s.logicalC p s
             else Except.ok s) with
      | Except.error e => Except.error e
      | Except.ok s1 =>
        let s2 := createPartitionEntry p s1.logicalC ctx.device
          ctx.diskFstabId s1
        Except.ok { s2 with logicalC := s2.logicalC + 1 }
  else if isExtendedTok p.order then
    if !PART_LOGICAL_EXTENDED_ALLOWED then
      Except.error (RunError.logicalNotAllowed, s)
    else if s.primaryC > PART_PRIMARY_PARTITIONS then
      Except.error (RunError.capacity, s)
    else if p.order.data.length < 2 then
      Except.error (RunError.badExtendedFormat, s)
    else if !(s.extensionStart = -1) then
      Except.error (RunError.secondExtended, s)
    else
      match (if build then createExtendedPartition ctx s.primaryC p s
             else Except.ok s) with
      | Except.error e => Except.error e
      | Except.ok s1 =>
        let s2 := createPartitionEntry p s1.primaryC ctx.device
          ctx.diskFstabId s1
        Except.ok { s2 with primaryC := s2.primaryC + 1 }
  else
    if s.primaryC > PART_PRIMARY_PARTITIONS then
      Except.error (RunError.capacity, s)
    else
      match (if build then createPrimaryPartition ctx s.primaryC p s
             else Except.ok s) with
      | Except.error e => Except.error e
      | Except.ok s1 =>
        let s2 := createPartitionEntry p s1.primaryC ctx.device
          ctx.diskFstabId s1
        Except.ok { s2 with primaryC := s2.primaryC + 1 }

/-- The declaration loop of `_doPartitioning` over the sorted list. -/
def partLoop (ctx : Ctx) (build : Bool) :
    List Decl → St → Except (RunError × St) St
  | [], s => Except.ok s
  | p :: ps, s =>
    match partStep ctx build p s with
    | Except.error e => Except.error e
    | Except.ok s1 => partLoop ctx build ps s1

/-- Rewrite the fstab id of the named entry to `LABEL=<name>` (the swap
pass assignment `partEntry[name]['fstab-id'] = 'LABEL=%s' % name`). -/
def setFstabLabel (name : String) :
    List (String × PartRecord) → List (String × PartRecord) :=
  List.map fun e =>
    if e.1 == name then
      (e.1, { e.2 with fstabId := some ("LABEL=" ++ name) })
    else e

/-- The swap pass at the end of `_doPartitioning`: for each registered
swap partition, run `mkswap` in build mode (failure is caught per entry
and skips that entry's bookkeeping), relabel the record's fstab id and
append it to `diskEntry['swaps']`. -/
def swapPass (ctx : Ctx) (build : Bool) :
    List (String × Nat × Decl) → St → St
  | [], s => s
  | (_, _, p) :: rest, s =>
    if build then
      let devStr :=
        ((List.lookup p.name s.entries).map PartRecord.device).getD ("")
      let (s1, ok1) := emit ctx (Call.mkswap p.name devStr) s
      if ok1 then
        let es := setFstabLabel p.name s1.entries
        let recNew := (List.lookup p.name es).getD ⟨0, "", "", none⟩
        swapPass ctx build rest
          { s1 with entries := es,
                    diskSwaps := s1.diskSwaps ++ [(p.name, recNew)] }
      else
        swapPass ctx build rest (warn s1)
    else
      let es := setFstabLabel p.name s.entries
      let recNew := (List.lookup p.name es).getD ⟨0, "", "", none⟩
      swapPass ctx build rest
        { s with entries := es,
                 diskSwaps := s.diskSwaps ++ [(p.name, recNew)] }

/-- Everything after the declaration loop: `partprobe` and
`udevadm settle` (plain calls, warn on failure, both modes), then the
swap pass over the accumulated `self.swaps`. -/
def postPhase (ctx : Ctx) (build : Bool) (s : St) : St :=
  let (s1, ok1) := emit ctx (Call.partprobe ctx.device) s
  let s1 := if ok1 then s1 else warn s1
  let (s2, ok2) := emit ctx Call.settle s1
  let s2 := if ok2 then s2 else warn s2
  swapPass ctx build s2.swaps s2

/-- The initial state of `_doPartitioning`: cursor at 0, no extended
span (`-1` sentinels), counters `primary = 1` and `logical = 5`, all
accumulators empty. -/
def initSt : St := ⟨0, -1, -1, 1, 5, [], [], [], [], 0⟩

/-- State right after the build-mode `mklabel msdos` table creation. -/
def afterLabel (ctx : Ctx) : St :=
  { initSt with trace := [Call.mklabel ctx.device PART_TYPE] }

/-- `_doPartitioning` from the point where the disk entry is resolved:
in build mode create the partition table (must-succeed), sort the
declarations by order token, run the declaration loop, then the
probe/settle/swap post-phase.  `build = true` is the `build` /
`system_build` phase, `build = false` the `use_system_build` phase.  (The source's
`extended = ""` / `extension = str(primary)` locals are written but
never read; they have no behavioral counterpart here.) -/
def doPartitioning (ctx : Ctx) (build : Bool) (decls : List Decl) :
    Except (RunError × St) St :=
  let start : Except (RunError × St) St :=
    if build then
      let (s1, ok1) := emit ctx (Call.mklabel ctx.device PART_TYPE) initSt
      if ok1 then Except.ok s1
      else Except.error (RunError.toolFailure, s1)
    else Except.ok initSt
  match start with
  | Except.error e => Except.error e
  | Except.ok sA =>
    match partLoop ctx build (sortStably declLt decls) sA with
    | Except.error e => Except.error e
    | Except.ok sB => Except.ok (postPhase ctx build sB)

/-- Did the run reach `log.passed()`? -/
def runOk : Except (RunError × St) St → Bool
  | Except.ok _ => true
  | Except.error _ => false

/-- The error of a failed run. -/
def runErr : Except (RunError × St) St → Option RunError
  | Except.ok _ => none
  | Except.error (e, _) => some e

/-- The `partitions` mapping at the end of the run (also populated on
the failure paths, matching the shared dict the source mutates). -/
def runEntries : Except (RunError × St) St → List (String × PartRecord)
  | Except.ok s => s.entries
  | Except.error (_, s) => s.entries

/-- The trace of tool calls of a run. -/
def runTrace : Except (RunError × St) St → List Call
  | Except.ok s => s.trace
  | Except.error (_, s) => s.trace

/-- The `(parttype, start, end)` extents of the `mkpart` calls of a
run, in creation order. -/
def mkpartExtents (r : Except (RunError × St) St) :
    List (String × Int × Int) :=
  (runTrace r).filterMap fun c =>
    match c with
    | Call.mkpart _ pt _ a b => some (pt, a, b)
    | _ => none

/-- The state a run ended in (on either outcome). -/
def okState : Except (RunError × St) St → St
  | Except.ok s => s
  | Except.error (_, s) => s

/-- The identity-relevant projection of a partition entry: name,
number, size and device (everything except the fstab id). -/
def stripF (e : String × PartRecord) : String × Nat × String × String :=
  (e.1, (e.2.number, e.2.size, e.2.device))

/-- Specification-side recorder: the sequence of `(name, record)` pairs
the declaration loop appends when it processes `ps` with the
primary/extended counter at `pc` and the logical counter at `lc`. -/
def entriesFor (device dfid : String) :
    List Decl → Nat → Nat → List (String × PartRecord)
  | [], _, _ => []
  | p :: ps, pc, lc =>
    if isLogicalTok p.order then
      (p.name, mkPartitionEntry p lc device dfid) ::
        entriesFor device dfid ps pc (lc + 1)
    else
      (p.name, mkPartitionEntry p pc device dfid) ::
        entriesFor device dfid ps (pc + 1) lc

/-- The numbers of the entries sitting at logical (`sel = true`) or
primary/extended (`sel = false`) positions, walking declarations and
entries in lockstep. -/
def numsAt (sel : Bool) : List Decl → List (String × PartRecord) → List Nat
  | p :: ps, e :: es =>
    if isLogicalTok p.order == sel then e.2.number :: numsAt sel ps es
    else numsAt sel ps es
  | _, _ => []

/-- Consecutive naturals `a, a+1, ..., a+k-1`. -/
def countUp : Nat → Nat → List Nat
  | _, 0 => []
  | a, k + 1 => a :: countUp (a + 1) k

/-- How many declarations of `ps` classify as logical (`sel = true`) or
primary/extended (`sel = false`). -/
def countClass (sel : Bool) (ps : List Decl) : Nat :=
  (ps.filter fun p => isLogicalTok p.order == sel).length

/-- Key of the mount-point sort in
`SystemBuildFileSystem._createFileSystemRecord`:
`len(x.split('/'))`, the number of `/`-separated components (so `"/"`
has key 2, the same as `"/boot"`). -/
def mountKey (s : String) : Nat := (splitChars '/' s.data).length

/-- Strict comparison of mount points by component count. -/
def mountLt (a b : String) : Bool := Nat.blt (mountKey a) (mountKey b)

/-- The processing order of `_createFileSystemRecord`: keep the option
keys starting with `/` and stable-sort them by `len(x.split('/'))`. -/
def fsMountOrder (keys : List String) : List String :=
  sortStably mountLt (keys.filter fun x => x.data.head? == some '/')

/-- Decimal reading of a size string, standing in for the external
`_getSizeInBytes` of the system object in concrete runs (sizes are
interpreted as raw byte counts). -/
def decSizer (s : String) : Option Nat :=
  some (s.data.foldl (fun a c => a * 10 + (c.toNat - 48)) 0)

/-- Exit-status oracle under which every tool call succeeds. -/
def allOk : Nat → Bool := fun _ => true

/-- A plain (non-loop) disk of 100 bytes whose fstab id is its device
path, with every tool call succeeding. -/
def ctxA : Ctx := ⟨"/dev/sda", 100, "/dev/sda", decSizer, allOk⟩

/-- Declarations exhibiting the extent overlap: a 10% primary, a 20%
extended, then another 10% primary. -/
def dsOverlap : List Decl :=
  [⟨"a", "1", "10", "ext2", []⟩, ⟨"b", "2E", "20", "ext2", []⟩,
   ⟨"c", "3", "10", "ext2", []⟩]

/-- A single swap declaration. -/
def dsSwap : List Decl := [⟨"sw", "1", "10", "linux-swap", []⟩]

/-- A single primary declaration carrying the `boot` flag. -/
def dsFlag : List Decl := [⟨"r", "1", "10", "ext2", ["boot"]⟩]

/-- Same disk as `ctxA` but the fourth tool call (the flag-setting call
of `dsFlag`'s run: mklabel, mkpart, name, then set) exits non-zero. -/
def ctxFlagFail : Ctx :=
  ⟨"/dev/sda", 100, "/dev/sda", decSizer, fun n => !(n == 3)⟩

/-- A well-shaped logical declaration with no extended declaration. -/
def dsLoneLogical : List Decl := [⟨"x", "1E:5L", "10", "ext2", []⟩]

/-- Five primary declarations on a 4-slot scheme. -/
def dsFivePrimaries : List Decl :=
  [⟨"a", "1", "10", "ext2", []⟩, ⟨"b", "2", "10", "ext2", []⟩,
   ⟨"c", "3", "10", "ext2", []⟩, ⟨"d", "4", "10", "ext2", []⟩,
   ⟨"e", "5", "10", "ext2", []⟩]

/-- Primaries, an extended and two logicals, declared out of order. -/
def dsMixed : List Decl :=
  [⟨"b", "2E", "30", "ext2", []⟩, ⟨"a", "1", "10", "ext2", []⟩,
   ⟨"l1", "2E:1L", "10", "ext2", []⟩, ⟨"l2", "2E:2L", "10", "ext2", []⟩,
   ⟨"cc", "3", "5", "ext2", []⟩]

/-- Conclusion of claim C2 at a finished run: entries appear in the
order of the token-sorted declarations, that order is a lexicographically
non-decreasing permutation of the input, and the primary/extended
numbers are the consecutive run 1,2,... while the logical numbers are
the consecutive run 5,6,..., each without duplicates. -/
def c2Prop (ds : List Decl) (s : St) : Prop :=
  s.entries.map Prod.fst = (sortStably declLt ds).map Decl.name ∧
  List.Perm (sortStably declLt ds) ds ∧
  List.Pairwise (fun a b => declLt b a = false) (sortStably declLt ds) ∧
  numsAt false (sortStably declLt ds) s.entries =
    countUp 1 (countClass false (sortStably declLt ds)) ∧
  numsAt true (sortStably declLt ds) s.entries =
    countUp 5 (countClass true (sortStably declLt ds)) ∧
  (numsAt false (sortStably declLt ds) s.entries).Nodup ∧
  (numsAt true (sortStably declLt ds) s.entries).Nodup

/-- Conclusion of claim C3: the run fails with the capacity error and
the partitions mapping holds exactly the first four sorted
declarations' entries. -/
def c3Prop (ctx : Ctx) (ds : List Decl) : Prop :=
  ∃ s', doPartitioning ctx true ds = Except.error (RunError.capacity, s') ∧
    s'.entries.map Prod.fst = ((sortStably declLt ds).take 4).map Decl.name ∧
    s'.entries.length = 4

/-- Conclusion of claim C4: the build run fails with a configuration
error (bad logical token shape, or the missing-extended `SystemError`),
and the trace at failure is exactly the trace after the prefix: not one
tool call was issued for the logical partition. -/
def c4Prop (ctx : Ctx) (ds : List Decl) (s1 : St) : Prop :=
  ∃ err, doPartitioning ctx true ds = Except.error (err, s1) ∧
    (err = RunError.badLogicalFormat ∨
      err = RunError.logicalWithoutExtended) ∧
    runTrace (doPartitioning ctx true ds) = s1.trace

/-- Conclusion of claim C5 for a build run ending in state `sB`: the
reuse run succeeds, agrees on name, number, size and device for every
record, and agrees on the whole record (fstab id included) whenever no
declaration resolves to a swap filesystem. -/
def c5Prop (ctx : Ctx) (ds : List Decl) (sB : St) : Prop :=
  ∃ sR, doPartitioning ctx false ds = Except.ok sR ∧
    sB.entries.map stripF = sR.entries.map stripF ∧
    ((∀ d ∈ ds, d.typ ≠ "linux-swap") → sB.entries = sR.entries)

/-- A plain declaration used to instantiate record-level theorems. -/
def dW : Decl := ⟨"w", "1", "10", "ext2", []⟩

/-- The flagged declaration of `dsFlag`. -/
def dFlag : Decl := ⟨"r", "1", "10", "ext2", ["boot"]⟩

theorem charsLt_cons (a b : Char) (as bs : List Char) :
    charsLt (a :: as) (b :: bs) =
      if a.toNat < b.toNat then true
      else if b.toNat < a.toNat then false
      else charsLt as bs := rfl

theorem charsLt_asymm : ∀ as bs, charsLt as bs = true → charsLt bs as = false := by
  intro as
  induction as with
  | nil =>
    intro bs h
    cases bs with
    | nil => simp [charsLt] at h
    | cons b bs' => simp [charsLt]
  | cons a as' ih =>
    intro bs h
    cases bs with
    | nil => simp [charsLt] at h
    | cons b bs' =>
      rw [charsLt_cons] at h
      rw [charsLt_cons]
      by_cases h1 : a.toNat < b.toNat
      · have h2 : ¬ b.toNat < a.toNat := by omega
        rw [if_neg h2, if_pos h1]
      · rw [if_neg h1] at h
        by_cases h2 : b.toNat < a.toNat
        · rw [if_pos h2] at h; simp at h
        · rw [if_neg h2] at h
          rw [if_neg h2, if_neg h1]
          exact ih _ h

theorem charsLt_negtrans :
    ∀ as bs cs, charsLt bs as = false → charsLt cs bs = false →
      charsLt cs as = false := by
  intro as
  induction as with
  | nil =>
    intro bs cs h1 h2
    cases cs <;> rfl
  | cons a as' ih =>
    intro bs cs h1 h2
    cases bs with
    | nil => simp [charsLt] at h1
    | cons b bs' =>
      cases cs with
      | nil => simp [charsLt] at h2
      | cons c cs' =>
        rw [charsLt_cons] at h1 h2
        rw [charsLt_cons]
        by_cases hba : b.toNat < a.toNat
        · rw [if_pos hba] at h1; simp at h1
        · rw [if_neg hba] at h1
          by_cases hcb : c.toNat < b.toNat
          · rw [if_pos hcb] at h2; simp at h2
          · rw [if_neg hcb] at h2
            have hca : ¬ c.toNat < a.toNat := by omega
            rw [if_neg hca]
            by_cases hac : a.toNat < c.toNat
            · rw [if_pos hac]
            · rw [if_neg hac]
              have hab : ¬ a.toNat < b.toNat := by omega
              have hbc : ¬ b.toNat < c.toNat := by omega
              rw [if_neg hab] at h1
              rw [if_neg hbc] at h2
              exact ih bs' cs' h1 h2

theorem insByLt_perm (lt : α → α → Bool) (x : α) (l : List α) :
    List.Perm (insByLt lt x l) (x :: l) := by
  induction l with
  | nil => simp [insByLt]
  | cons y ys ih =>
    simp only [insByLt]
    by_cases hc : lt y x = true
    · rw [if_pos hc]
      exact (ih.cons y).trans (List.Perm.swap x y ys)
    · rw [if_neg hc]

theorem sortStably_perm (lt : α → α → Bool) (l : List α) :
    List.Perm (sortStably lt l) l := by
  induction l with
  | nil => simp [sortStably]
  | cons x xs ih =>
    simp only [sortStably]
    exact (insByLt_perm lt x _).trans (ih.cons x)

theorem insByLt_pairwise (lt : α → α → Bool)
    (hasym : ∀ a b, lt a b = true → lt b a = false)
    (hneg : ∀ a b c, lt b a = false → lt c b = false → lt c a = false)
    (x : α) (l : List α)
    (h : List.Pairwise (fun a b => lt b a = false) l) :
    List.Pairwise (fun a b => lt b a = false) (insByLt lt x l) := by
  induction l with
  | nil => simp [insByLt]
  | cons y ys ih =>
    rcases List.pairwise_cons.mp h with ⟨hy, hys⟩
    simp only [insByLt]
    by_cases hc : lt y x = true
    · rw [if_pos hc]
      rw [List.pairwise_cons]
      constructor
      · intro z hz
        rcases List.mem_cons.mp ((insByLt_perm lt x ys).mem_iff.mp hz) with
          rfl | hz'
        · exact hasym _ _ hc
        · exact hy z hz'
      · exact ih hys
    · rw [if_neg hc]
      have hc' : lt y x = false := by
        cases hv : lt y x
        · rfl
        · exact absurd hv hc
      rw [List.pairwise_cons]
      refine ⟨?_, h⟩
      intro z hz
      rcases List.mem_cons.mp hz with rfl | hz'
      · exact hc'
      · exact hneg x y z hc' (hy z hz')

theorem sortStably_pairwise (lt : α → α → Bool)
    (hasym : ∀ a b, lt a b = true → lt b a = false)
    (hneg : ∀ a b c, lt b a = false → lt c b = false → lt c a = false)
    (l : List α) :
    List.Pairwise (fun a b => lt b a = false) (sortStably lt l) := by
  induction l with
  | nil => simp [sortStably]
  | cons x xs ih =>
    simp only [sortStably]
    exact insByLt_pairwise lt hasym hneg x _ ih

theorem declLt_asymm (a b : Decl) (h : declLt a b = true) : declLt b a = false :=
  charsLt_asymm _ _ h

theorem declLt_negtrans (a b c : Decl) (h1 : declLt b a = false)
    (h2 : declLt c b = false) : declLt c a = false :=
  charsLt_negtrans _ _ _ h1 h2

theorem mountLt_asymm (a b : String) (h : mountLt a b = true) :
    mountLt b a = false := by
  simp only [mountLt, Nat.blt_eq] at h
  simp only [mountLt]
  rw [Bool.eq_false_iff]
  simp only [ne_eq, Nat.blt_eq]
  omega

theorem mountLt_negtrans (a b c : String) (h1 : mountLt b a = false)
    (h2 : mountLt c b = false) : mountLt c a = false := by
  simp only [mountLt] at h1 h2 ⊢
  rw [Bool.eq_false_iff] at h1 h2 ⊢
  simp only [ne_eq, Nat.blt_eq] at h1 h2 ⊢
  omega

end CsmakeSystemBuild

namespace CsmakeSystemBuild

theorem warn_entries (s : St) : (warn s).entries = s.entries := rfl
theorem warn_primaryC (s : St) : (warn s).primaryC = s.primaryC := rfl
theorem warn_logicalC (s : St) : (warn s).logicalC = s.logicalC := rfl
theorem warn_extensionStart (s : St) :
    (warn s).extensionStart = s.extensionStart := rfl
theorem warn_extensionEnd (s : St) :
    (warn s).extensionEnd = s.extensionEnd := rfl
theorem warn_startPercent (s : St) :
    (warn s).startPercent = s.startPercent := rfl
theorem warn_swaps (s : St) : (warn s).swaps = s.swaps := rfl
theorem warn_diskSwaps (s : St) : (warn s).diskSwaps = s.diskSwaps := rfl
theorem warn_trace (s : St) : (warn s).trace = s.trace := rfl

theorem applyFlags_fields (ctx : Ctx) (n : Nat) :
    ∀ fs s s', applyFlags ctx n fs s = Except.ok s' →
      s'.entries = s.entries ∧ s'.primaryC = s.primaryC ∧
      s'.logicalC = s.logicalC ∧ s'.extensionStart = s.extensionStart ∧
      s'.extensionEnd = s.extensionEnd ∧
      s'.startPercent = s.startPercent ∧ s'.swaps = s.swaps ∧
      s'.diskSwaps = s.diskSwaps := by
  intro fs
  induction fs with
  | nil =>
    intro s s' h
    simp only [applyFlags, Except.ok.injEq] at h
    subst h
    simp
  | cons f fs ih =>
    intro s s' h
    simp only [applyFlags, emit] at h
    split at h
    · have := ih _ _ h
      simpa using this
    · cases h

theorem createNext_fields (ctx : Ctx) (n : Nat) (pt : String) (p : Decl)
    (a b : Int) (s s' : St)
    (h : createNextPartition ctx n pt p a b s = Except.ok s') :
    s'.entries = s.entries ∧ s'.primaryC = s.primaryC ∧
    s'.logicalC = s.logicalC ∧ s'.extensionStart = s.extensionStart ∧
    s'.extensionEnd = s.extensionEnd ∧
    s'.startPercent = s.startPercent ∧ s'.diskSwaps = s.diskSwaps := by
  simp only [createNextPartition, emit] at h
  split at h
  · cases h
  · split at h
    case _ e heq => cases h
    case _ s3 heq =>
      have hf := applyFlags_fields ctx n p.flags _ _ heq
      simp only [Except.ok.injEq] at h
      subst h
      refine ⟨?_, ?_, ?_, ?_, ?_, ?_, ?_⟩ <;>
        (simp only [editPartitionWithSfdisk, emit, warn]
         repeat' split
         all_goals simp_all)

theorem createPrimary_fields (ctx : Ctx) (n : Nat) (p : Decl) (s s' : St)
    (h : createPrimaryPartition ctx n p s = Except.ok s') :
    s'.entries = s.entries ∧ s'.primaryC = s.primaryC ∧
    s'.logicalC = s.logicalC ∧ s'.extensionStart = s.extensionStart ∧
    s'.extensionEnd = s.extensionEnd := by
  simp only [createPrimaryPartition] at h
  split at h
  · cases h
  · split at h
    case _ e heq => cases h
    case _ s1 heq =>
      have hf := createNext_fields _ _ _ _ _ _ _ _ heq
      simp only [Except.ok.injEq] at h
      obtain ⟨f1, f2, f3, f4, f5, f6, f7⟩ := hf
      subst h
      refine ⟨?_, ?_, ?_, ?_, ?_⟩ <;>
        simp_all [warn, apply_ite St.entries, apply_ite St.primaryC,
          apply_ite St.logicalC, apply_ite St.extensionStart,
          apply_ite St.extensionEnd, apply_ite St.startPercent,
          apply_ite St.swaps, apply_ite St.diskSwaps]

theorem createExtended_fields (ctx : Ctx) (n : Nat) (p : Decl) (s s' : St)
    (h : createExtendedPartition ctx n p s = Except.ok s') :
    s'.entries = s.entries ∧ s'.primaryC = s.primaryC ∧
    s'.logicalC = s.logicalC ∧ s'.startPercent = s.startPercent := by
  simp only [createExtendedPartition] at h
  split at h
  · cases h
  · split at h
    case _ e heq => cases h
    case _ s1 heq =>
      have hf := createNext_fields _ _ _ _ _ _ _ _ heq
      simp only [Except.ok.injEq] at h
      obtain ⟨f1, f2, f3, f4, f5, f6, f7⟩ := hf
      subst h
      refine ⟨?_, ?_, ?_, ?_⟩ <;>
        simp_all [warn, apply_ite St.entries, apply_ite St.primaryC,
          apply_ite St.logicalC, apply_ite St.extensionStart,
          apply_ite St.extensionEnd, apply_ite St.startPercent,
          apply_ite St.swaps, apply_ite St.diskSwaps]

theorem createLogical_fields (ctx : Ctx) (n : Nat) (p : Decl) (s s' : St)
    (h : createLogicalPartition ctx n p s = Except.ok s') :
    s'.entries = s.entries ∧ s'.primaryC = s.primaryC ∧
    s'.logicalC = s.logicalC ∧ s'.extensionEnd = s.extensionEnd ∧
    s'.startPercent = s.startPercent := by
  simp only [createLogicalPartition] at h
  split at h
  · cases h
  · split at h
    · cases h
    · split at h
      case _ e heq => cases h
      case _ s1 heq =>
        have hf := createNext_fields _ _ _ _ _ _ _ _ heq
        simp only [Except.ok.injEq] at h
        obtain ⟨f1, f2, f3, f4, f5, f6, f7⟩ := hf
        subst h
        refine ⟨?_, ?_, ?_, ?_, ?_⟩ <;>
        simp_all [warn, apply_ite St.entries, apply_ite St.primaryC,
          apply_ite St.logicalC, apply_ite St.extensionStart,
          apply_ite St.extensionEnd, apply_ite St.startPercent,
          apply_ite St.swaps, apply_ite St.diskSwaps]

theorem partStep_ok (ctx : Ctx) (build : Bool) (p : Decl) (s s' : St)
    (h : partStep ctx build p s = Except.ok s') :
    s'.entries = s.entries ++
      [(p.name, mkPartitionEntry p
        (if isLogicalTok p.order then s.logicalC else s.primaryC)
        ctx.device ctx.diskFstabId)] ∧
    s'.primaryC = s.primaryC + (if isLogicalTok p.order then 0 else 1) ∧
    s'.logicalC = s.logicalC + (if isLogicalTok p.order then 1 else 0) := by
  by_cases hL : isLogicalTok p.order = true
  · simp only [partStep, hL, PART_LOGICAL_EXTENDED_ALLOWED, Bool.not_true,
      Bool.false_eq_true, if_false, if_true] at h
    split at h
    · cases h
    · split at h
      case _ e heq => cases h
      case _ s1 heq =>
        have hf : s1.entries = s.entries ∧ s1.primaryC = s.primaryC ∧
            s1.logicalC = s.logicalC := by
          cases build with
          | false =>
            simp only [Bool.false_eq_true, if_false, Except.ok.injEq] at heq
            subst heq
            exact ⟨rfl, rfl, rfl⟩
          | true =>
            simp only [if_true] at heq
            have hg := createLogical_fields _ _ _ _ _ heq
            exact ⟨hg.1, hg.2.1, hg.2.2.1⟩
        simp only [Except.ok.injEq] at h
        subst h
        simp [createPartitionEntry, hL, hf.1, hf.2.1, hf.2.2]
  · by_cases hE : isExtendedTok p.order = true
    · simp only [partStep, hL, hE, PART_LOGICAL_EXTENDED_ALLOWED,
        Bool.not_true, Bool.false_eq_true, if_false, if_true] at h
      split at h
      · cases h
      · split at h
        · cases h
        · split at h
          · cases h
          · split at h
            case _ e heq => cases h
            case _ s1 heq =>
              have hf : s1.entries = s.entries ∧ s1.primaryC = s.primaryC ∧
                  s1.logicalC = s.logicalC := by
                cases build with
                | false =>
                  simp only [Bool.false_eq_true, if_false,
                    Except.ok.injEq] at heq
                  subst heq
                  exact ⟨rfl, rfl, rfl⟩
                | true =>
                  simp only [if_true] at heq
                  have hg := createExtended_fields _ _ _ _ _ heq
                  exact ⟨hg.1, hg.2.1, hg.2.2.1⟩
              simp only [Except.ok.injEq] at h
              subst h
              simp [createPartitionEntry, hL, hf.1, hf.2.1, hf.2.2]
    · simp only [partStep, hL, hE, Bool.false_eq_true, if_false] at h
      split at h
      · cases h
      · split at h
        case _ e heq => cases h
        case _ s1 heq =>
          have hf : s1.entries = s.entries ∧ s1.primaryC = s.primaryC ∧
              s1.logicalC = s.logicalC := by
            cases build with
            | false =>
              simp only [Bool.false_eq_true, if_false, Except.ok.injEq] at heq
              subst heq
              exact ⟨rfl, rfl, rfl⟩
            | true =>
              simp only [if_true] at heq
              have hg := createPrimary_fields _ _ _ _ _ heq
              exact ⟨hg.1, hg.2.1, hg.2.2.1⟩
          simp only [Except.ok.injEq] at h
          subst h
          simp [createPartitionEntry, hL, hf.1, hf.2.1, hf.2.2]

theorem mkPartitionEntry_number (p : Decl) (n : Nat) (d f : String) :
    (mkPartitionEntry p n d f).number = n := rfl

theorem countClass_cons (sel : Bool) (p : Decl) (ps : List Decl) :
    countClass sel (p :: ps) =
      (if isLogicalTok p.order == sel then 1 else 0) + countClass sel ps := by
  simp only [countClass, List.filter_cons]
  split <;> simp [Nat.add_comm]

theorem partLoop_ok (ctx : Ctx) (build : Bool) :
    ∀ parts s s', partLoop ctx build parts s = Except.ok s' →
      s'.entries = s.entries ++
        entriesFor ctx.device ctx.diskFstabId parts s.primaryC s.logicalC ∧
      s'.primaryC = s.primaryC + countClass false parts ∧
      s'.logicalC = s.logicalC + countClass true parts := by
  intro parts
  induction parts with
  | nil =>
    intro s s' h
    simp only [partLoop, Except.ok.injEq] at h
    subst h
    simp [entriesFor, countClass]
  | cons p ps ih =>
    intro s s' h
    simp only [partLoop] at h
    split at h
    case _ e heq => cases h
    case _ s1 heq =>
      have hstep := partStep_ok ctx build p s s1 heq
      have hrest := ih s1 s' h
      obtain ⟨he, hp, hl⟩ := hstep
      obtain ⟨he2, hp2, hl2⟩ := hrest
      by_cases hL : isLogicalTok p.order = true
      · simp only [hL, if_true] at he hp hl
        refine ⟨?_, ?_, ?_⟩
        · rw [he2, he, hp, hl]
          simp [entriesFor, hL]
        · rw [hp2, hp, countClass_cons, hL]
          simp
        · rw [hl2, hl, countClass_cons, hL]
          simp
          all_goals omega
      · have hL' : isLogicalTok p.order = false := by
          cases hv : isLogicalTok p.order
          · rfl
          · exact absurd hv hL
        simp only [hL', Bool.false_eq_true, if_false] at he hp hl
        refine ⟨?_, ?_, ?_⟩
        · rw [he2, he, hp, hl]
          simp [entriesFor, hL']
        · rw [hp2, hp, countClass_cons, hL']
          simp
          all_goals omega
        · rw [hl2, hl, countClass_cons, hL']
          simp

theorem partLoop_append (ctx : Ctx) (b : Bool) :
    ∀ xs ys s, partLoop ctx b (xs ++ ys) s =
      match partLoop ctx b xs s with
      | Except.error e => Except.error e
      | Except.ok s1 => partLoop ctx b ys s1 := by
  intro xs
  induction xs with
  | nil => intro ys s; simp [partLoop]
  | cons x xs ih =>
    intro ys s
    simp only [List.cons_append, partLoop]
    split <;> simp [ih]

theorem entriesFor_fst (d f : String) :
    ∀ (ps : List Decl) (pc lc : Nat),
      (entriesFor d f ps pc lc).map Prod.fst = ps.map Decl.name := by
  intro ps
  induction ps with
  | nil => intro pc lc; simp [entriesFor]
  | cons p ps ih =>
    intro pc lc
    simp only [entriesFor]
    split <;> simp [ih]

theorem entriesFor_length (d f : String) :
    ∀ (ps : List Decl) (pc lc : Nat),
      (entriesFor d f ps pc lc).length = ps.length := by
  intro ps
  induction ps with
  | nil => intro pc lc; simp [entriesFor]
  | cons p ps ih =>
    intro pc lc
    simp only [entriesFor]
    split <;> simp [ih]

theorem numsAt_true_entriesFor (d f : String) :
    ∀ (ps : List Decl) (pc lc : Nat),
      numsAt true ps (entriesFor d f ps pc lc) =
        countUp lc (countClass true ps) := by
  intro ps
  induction ps with
  | nil => intro pc lc; simp [numsAt, entriesFor, countClass, countUp]
  | cons p ps ih =>
    intro pc lc
    rw [countClass_cons]
    by_cases hL : isLogicalTok p.order = true
    · simp only [entriesFor, hL, if_true, numsAt, beq_self_eq_true,
        mkPartitionEntry_number]
      rw [ih]
      simp [countUp, Nat.add_comm]
    · have hL' : isLogicalTok p.order = false := by
        cases hv : isLogicalTok p.order
        · rfl
        · exact absurd hv hL
      simp only [entriesFor, hL', Bool.false_eq_true, if_false, numsAt]
      rw [ih]
      simp [hL']

theorem numsAt_false_entriesFor (d f : String) :
    ∀ (ps : List Decl) (pc lc : Nat),
      numsAt false ps (entriesFor d f ps pc lc) =
        countUp pc (countClass false ps) := by
  intro ps
  induction ps with
  | nil => intro pc lc; simp [numsAt, entriesFor, countClass, countUp]
  | cons p ps ih =>
    intro pc lc
    rw [countClass_cons]
    by_cases hL : isLogicalTok p.order = true
    · simp only [entriesFor, hL, if_true, numsAt]
      rw [ih]
      simp [hL]
    · have hL' : isLogicalTok p.order = false := by
        cases hv : isLogicalTok p.order
        · rfl
        · exact absurd hv hL
      simp only [entriesFor, hL', Bool.false_eq_true, if_false, numsAt,
        beq_self_eq_true, mkPartitionEntry_number]
      rw [ih]
      simp [countUp, Nat.add_comm]

theorem countUp_mem : ∀ (k a b : Nat), b ∈ countUp a k → a ≤ b := by
  intro k
  induction k with
  | zero => intro a b h; simp [countUp] at h
  | succ k ih =>
    intro a b h
    simp only [countUp, List.mem_cons] at h
    rcases h with rfl | h
    · omega
    · have := ih (a + 1) b h
      omega

theorem countUp_nodup : ∀ (k a : Nat), (countUp a k).Nodup := by
  intro k
  induction k with
  | zero => intro a; simp [countUp]
  | succ k ih =>
    intro a
    simp only [countUp, List.nodup_cons]
    refine ⟨?_, ih (a + 1)⟩
    intro hmem
    have := countUp_mem k (a + 1) a hmem
    omega

theorem setFstabLabel_stripF (n : String) :
    ∀ es, (setFstabLabel n es).map stripF = es.map stripF := by
  intro es
  induction es with
  | nil => simp [setFstabLabel]
  | cons e es ih =>
    simp only [setFstabLabel, List.map_cons] at ih ⊢
    rw [ih]
    split <;> simp [stripF]

theorem swapPass_stripF (ctx : Ctx) (build : Bool) :
    ∀ sw s, ((swapPass ctx build sw s).entries).map stripF =
      s.entries.map stripF := by
  intro sw
  induction sw with
  | nil => intro s; simp [swapPass]
  | cons t rest ih =>
    intro s
    obtain ⟨dev, num, p⟩ := t
    simp only [swapPass]
    cases build with
    | true =>
      simp only [if_true, emit]
      split
      · rw [ih]
        simp [setFstabLabel_stripF]
      · rw [ih]
        simp [warn]
    | false =>
      simp only [Bool.false_eq_true, if_false]
      rw [ih]
      simp [setFstabLabel_stripF]

theorem postPhase_stripF (ctx : Ctx) (build : Bool) (s : St) :
    ((postPhase ctx build s).entries).map stripF = s.entries.map stripF := by
  simp only [postPhase, emit]
  rw [swapPass_stripF]
  repeat' split
  all_goals simp [warn]

theorem swapPass_nil (ctx : Ctx) (build : Bool) (s : St) :
    swapPass ctx build [] s = s := rfl

theorem postPhase_entries_noswaps (ctx : Ctx) (build : Bool) (s : St)
    (h : s.swaps = []) : (postPhase ctx build s).entries = s.entries := by
  simp only [postPhase, emit]
  repeat' split
  all_goals simp [warn, h, swapPass_nil]

theorem doPartitioning_ok_inv (ctx : Ctx) (build : Bool) (ds : List Decl)
    (s : St) (h : doPartitioning ctx build ds = Except.ok s) :
    ∃ sA sB, sA.entries = [] ∧ sA.primaryC = 1 ∧ sA.logicalC = 5 ∧
      sA.extensionStart = -1 ∧ sA.swaps = [] ∧
      partLoop ctx build (sortStably declLt ds) sA = Except.ok sB ∧
      s = postPhase ctx build sB := by
  cases build with
  | false =>
    simp only [doPartitioning, Bool.false_eq_true, if_false] at h
    split at h
    case _ e heq => cases h
    case _ sB heq =>
      simp only [Except.ok.injEq] at h
      exact ⟨initSt, sB, rfl, rfl, rfl, rfl, rfl, heq, h.symm⟩
  | true =>
    simp only [doPartitioning, if_true, emit, initSt] at h
    split at h
    case _ e heq => cases h
    case _ sA heq =>
      split at heq
      · simp only [Except.ok.injEq] at heq
        subst heq
        split at h
        case _ e heq2 => cases h
        case _ sB heq2 =>
          simp only [Except.ok.injEq] at h
          exact ⟨_, sB, rfl, rfl, rfl, rfl, rfl, heq2, h.symm⟩
      · cases heq

theorem numsAt_congr (sel : Bool) :
    ∀ (ps : List Decl) (es es' : List (String × PartRecord)),
      es.map stripF = es'.map stripF →
      numsAt sel ps es = numsAt sel ps es' := by
  intro ps
  induction ps with
  | nil => intro es es' h; cases es <;> cases es' <;> simp [numsAt]
  | cons p ps ih =>
    intro es es' h
    cases es with
    | nil =>
      cases es' with
      | nil => rfl
      | cons e' es'' => simp at h
    | cons e es2 =>
      cases es' with
      | nil => simp at h
      | cons e' es'' =>
        simp only [List.map_cons, List.cons.injEq] at h
        have hnum : e.2.number = e'.2.number := by
          have := h.1
          simp only [stripF, Prod.mk.injEq] at this
          exact this.2.1
        simp only [numsAt]
        split
        · rw [hnum, ih es2 es'' h.2]
        · exact ih es2 es'' h.2

theorem map_fst_of_stripF (es es' : List (String × PartRecord))
    (h : es.map stripF = es'.map stripF) :
    es.map Prod.fst = es'.map Prod.fst := by
  have := congrArg (List.map Prod.fst) h
  simpa [List.map_map, Function.comp, stripF] using this

/-- C2: for every declaration set and either phase, a completed run
processes the declarations in lexicographic order of the order token
(the emitted records follow the token-sorted permutation of the input,
not the declaration names), and the record numbers come from the class
counters alone: primaries and the extended partition get 1,2,3,...
in creation order and logicals get 5,6,... in creation order, so every
number is unique within its class, independent of the token values. -/
theorem c2_sorted_processing_and_numbering (ctx : Ctx) (build : Bool)
    (ds : List Decl) (s : St)
    (h : doPartitioning ctx build ds = Except.ok s) : c2Prop ds s := by
  obtain ⟨sA, sB, hAe, hAp, hAl, hAx, hAs, hloop, hpost⟩ :=
    doPartitioning_ok_inv ctx build ds s h
  obtain ⟨he, hp, hl⟩ := partLoop_ok ctx build _ sA sB hloop
  rw [hAe, hAp, hAl] at he
  simp only [List.nil_append] at he
  have hstrip : s.entries.map stripF = sB.entries.map stripF := by
    rw [hpost]
    exact postPhase_stripF ctx build sB
  refine ⟨?_, sortStably_perm declLt ds,
    sortStably_pairwise declLt declLt_asymm declLt_negtrans ds, ?_, ?_, ?_, ?_⟩
  · rw [map_fst_of_stripF _ _ hstrip, he, entriesFor_fst]
  · rw [numsAt_congr false _ _ _ hstrip, he, numsAt_false_entriesFor]
  · rw [numsAt_congr true _ _ _ hstrip, he, numsAt_true_entriesFor]
  · rw [numsAt_congr false _ _ _ hstrip, he, numsAt_false_entriesFor]
    exact countUp_nodup _ _
  · rw [numsAt_congr true _ _ _ hstrip, he, numsAt_true_entriesFor]
    exact countUp_nodup _ _

/-- Witness for C2: the mixed declaration set (two primaries declared
out of order, one extended, two logicals) processed in build mode. -/
theorem c2_sorted_processing_and_numbering_witness :
    c2Prop dsMixed (okState (doPartitioning ctxA true dsMixed)) :=
  c2_sorted_processing_and_numbering ctxA true dsMixed
    (okState (doPartitioning ctxA true dsMixed)) (by rfl)

theorem applyFlags_exists (ctx : Ctx) (n : Nat)
    (hor : ∀ m, ctx.oracle m = true) :
    ∀ fs s, ∃ s', applyFlags ctx n fs s = Except.ok s' := by
  intro fs
  induction fs with
  | nil => intro s; exact ⟨s, rfl⟩
  | cons f fs ih =>
    intro s
    simp only [applyFlags, emit, hor, if_true]
    exact ih _

theorem createNext_exists (ctx : Ctx) (n : Nat) (pt : String) (p : Decl)
    (a b : Int) (s : St) (hor : ∀ m, ctx.oracle m = true) :
    ∃ s', createNextPartition ctx n pt p a b s = Except.ok s' := by
  simp only [createNextPartition, emit, hor, Bool.not_true,
    Bool.false_eq_true, if_false]
  obtain ⟨s3, h3⟩ := applyFlags_exists ctx n hor p.flags _
  rw [h3]
  exact ⟨_, rfl⟩

theorem createPrimary_exists (ctx : Ctx) (n : Nat) (p : Decl) (s : St)
    (hor : ∀ m, ctx.oracle m = true)
    (hsz : (ctx.sizer p.size).isSome = true) :
    ∃ s', createPrimaryPartition ctx n p s = Except.ok s' := by
  obtain ⟨bytes, hb⟩ := Option.isSome_iff_exists.mp hsz
  simp only [createPrimaryPartition, hb]
  obtain ⟨s1, h1⟩ := createNext_exists ctx n ("primary") p _ _ _ hor
  rw [h1]
  exact ⟨_, rfl⟩

theorem partStep_primary_exists (ctx : Ctx) (p : Decl) (s : St)
    (hor : ∀ m, ctx.oracle m = true)
    (hL : isLogicalTok p.order = false) (hE : isExtendedTok p.order = false)
    (hsz : (ctx.sizer p.size).isSome = true)
    (hc : s.primaryC ≤ PART_PRIMARY_PARTITIONS) :
    ∃ s', partStep ctx true p s = Except.ok s' := by
  have hnc : ¬ s.primaryC > PART_PRIMARY_PARTITIONS := by omega
  simp only [partStep, hL, hE, Bool.false_eq_true, if_false, hnc, if_true]
  obtain ⟨s1, h1⟩ := createPrimary_exists ctx s.primaryC p s hor hsz
  rw [h1]
  exact ⟨_, rfl⟩

theorem partLoop_primaries_exists (ctx : Ctx)
    (hor : ∀ m, ctx.oracle m = true) :
    ∀ (parts : List Decl) (s : St),
      (∀ d ∈ parts, isLogicalTok d.order = false ∧
        isExtendedTok d.order = false ∧ (ctx.sizer d.size).isSome = true) →
      s.primaryC + parts.length ≤ 5 →
      ∃ s', partLoop ctx true parts s = Except.ok s' := by
  intro parts
  induction parts with
  | nil => intro s _ _; exact ⟨s, rfl⟩
  | cons p ps ih =>
    intro s hall hb
    obtain ⟨hL, hE, hsz⟩ := hall p (List.mem_cons_self p ps)
    have hc : s.primaryC ≤ PART_PRIMARY_PARTITIONS := by
      simp only [PART_PRIMARY_PARTITIONS]
      simp only [List.length_cons] at hb
      omega
    obtain ⟨s1, h1⟩ := partStep_primary_exists ctx p s hor hL hE hsz hc
    have hp1 := (partStep_ok ctx true p s s1 h1).2.1
    rw [hL] at hp1
    simp only [Bool.false_eq_true, if_false] at hp1
    simp only [partLoop, h1]
    refine ih s1 (fun d hd => hall d (List.mem_cons_of_mem p hd)) ?_
    simp only [List.length_cons] at hb
    omega

/-- C3: on the MSDOS scheme, a declaration set of five or more
primary declarations (tokens classifying as primary, parsable sizes,
tools succeeding) fails fatally at the fifth primary/extended slot with
the capacity error, and the partitions mapping then contains exactly the
4 successfully processed entries. -/
theorem c3_fifth_primary_capacity (ctx : Ctx) (ds : List Decl)
    (hor : ∀ m, ctx.oracle m = true)
    (hall : ∀ d ∈ ds, isLogicalTok d.order = false ∧
      isExtendedTok d.order = false ∧ (ctx.sizer d.size).isSome = true)
    (hlen : 5 ≤ ds.length) : c3Prop ctx ds := by
  have hslen : (sortStably declLt ds).length = ds.length :=
    (sortStably_perm declLt ds).length_eq
  have hmem : ∀ d ∈ sortStably declLt ds, isLogicalTok d.order = false ∧
      isExtendedTok d.order = false ∧ (ctx.sizer d.size).isSome = true :=
    fun d hd => hall d ((sortStably_perm declLt ds).mem_iff.mp hd)
  have h4 : 4 < (sortStably declLt ds).length := by omega
  have htk : ((sortStably declLt ds).take 4).length = 4 := by
    rw [List.length_take]
    omega
  obtain ⟨s4, hloop4⟩ := partLoop_primaries_exists ctx hor
    ((sortStably declLt ds).take 4) (afterLabel ctx)
    (fun d hd => hmem d (List.take_subset 4 _ hd))
    (by rw [htk]; rfl)
  obtain ⟨he4, hp4, hl4⟩ := partLoop_ok ctx true _ _ _ hloop4
  have hcc : countClass false ((sortStably declLt ds).take 4) = 4 := by
    have hfil : (((sortStably declLt ds).take 4).filter
        fun p => isLogicalTok p.order == false) =
        (sortStably declLt ds).take 4 :=
      List.filter_eq_self.mpr (fun a ha => by
        simp [(hmem a (List.take_subset 4 _ ha)).1])
    simp only [countClass, hfil, htk]
  have hp5 : s4.primaryC = 5 := by
    rw [hp4, hcc]
    rfl
  have hd5 := hmem ((sortStably declLt ds)[4])
    (List.getElem_mem h4)
  have hstep5 : partStep ctx true ((sortStably declLt ds)[4]) s4 =
      Except.error (RunError.capacity, s4) := by
    have hgt : s4.primaryC > PART_PRIMARY_PARTITIONS := by
      rw [hp5]
      simp [PART_PRIMARY_PARTITIONS]
    simp only [partStep, hd5.1, hd5.2.1, Bool.false_eq_true, if_false, hgt,
      if_true]
  have hfull : partLoop ctx true (sortStably declLt ds) (afterLabel ctx) =
      Except.error (RunError.capacity, s4) := by
    conv =>
      lhs
      rw [(List.take_append_drop 4 (sortStably declLt ds)).symm]
    rw [partLoop_append, hloop4, List.drop_eq_getElem_cons h4]
    simp only [partLoop, hstep5]
  refine ⟨s4, ?_, ?_, ?_⟩
  · have hdo : doPartitioning ctx true ds =
        match partLoop ctx true (sortStably declLt ds) (afterLabel ctx) with
        | Except.error e => Except.error e
        | Except.ok sB => Except.ok (postPhase ctx true sB) := by
      simp [doPartitioning, emit, initSt, hor, afterLabel]
    rw [hdo, hfull]
  · rw [he4]
    simp [afterLabel, initSt, entriesFor_fst]
  · rw [he4]
    simp [afterLabel, initSt, entriesFor_length, htk]

/-- Witness for C3: five primaries on the all-tools-succeed disk. -/
theorem c3_fifth_primary_capacity_witness : c3Prop ctxA dsFivePrimaries :=
  c3_fifth_primary_capacity ctxA dsFivePrimaries (fun _ => rfl) (by decide)
    (by decide)

theorem partStep_noE_ext (ctx : Ctx) (p : Decl) (s s' : St)
    (h : partStep ctx true p s = Except.ok s')
    (hE : isExtendedTok p.order = false) (hx : s.extensionStart = -1) :
    s'.extensionStart = -1 := by
  by_cases hL : isLogicalTok p.order = true
  · simp only [partStep, hL, PART_LOGICAL_EXTENDED_ALLOWED, Bool.not_true,
      Bool.false_eq_true, if_false, if_true] at h
    split at h
    · cases h
    · split at h
      case _ e heq => cases h
      case _ s1 heq =>
        simp only [if_true, createLogicalPartition, hx, if_pos] at heq
        cases heq
  · have hL' : isLogicalTok p.order = false := by
      cases hv : isLogicalTok p.order
      · rfl
      · exact absurd hv hL
    simp only [partStep, hL', hE, Bool.false_eq_true, if_false] at h
    split at h
    · cases h
    · split at h
      case _ e heq => cases h
      case _ s1 heq =>
        simp only [if_true] at heq
        have hg := createPrimary_fields _ _ _ _ _ heq
        simp only [Except.ok.injEq] at h
        subst h
        simp [createPartitionEntry, hg.2.2.2.1, hx]

theorem partLoop_noE_ext (ctx : Ctx) :
    ∀ (parts : List Decl) (s s' : St),
      (∀ d ∈ parts, isExtendedTok d.order = false) →
      s.extensionStart = -1 →
      partLoop ctx true parts s = Except.ok s' →
      s'.extensionStart = -1 := by
  intro parts
  induction parts with
  | nil =>
    intro s s' _ hx h
    simp only [partLoop, Except.ok.injEq] at h
    subst h
    exact hx
  | cons p ps ih =>
    intro s s' hall hx h
    simp only [partLoop] at h
    split at h
    case _ e heq => cases h
    case _ s1 heq =>
      exact ih s1 s'
        (fun d hd => hall d (List.mem_cons_of_mem p hd))
        (partStep_noE_ext ctx p s s1 heq
          (hall p (List.mem_cons_self p ps)) hx) h

/-- C4: in build mode, when the token-sorted declarations reach a
logical declaration (token ending in `L`) before any extended
declaration, and the declarations before it processed fine, the run
fails fatally — with the bad-shape configuration error or the
missing-extended `SystemError` — before any partitioning tool call is
issued for that partition (the trace stays exactly the prefix trace). -/
theorem c4_logical_without_extended (ctx : Ctx) (ds : List Decl)
    (pre post : List Decl) (d : Decl) (s1 : St)
    (hsplit : sortStably declLt ds = pre ++ d :: post)
    (hL : isLogicalTok d.order = true)
    (hpre : ∀ e ∈ pre, isExtendedTok e.order = false)
    (horacle0 : ctx.oracle 0 = true)
    (hloop : partLoop ctx true pre (afterLabel ctx) = Except.ok s1) :
    c4Prop ctx ds s1 := by
  have hx1 : s1.extensionStart = -1 :=
    partLoop_noE_ext ctx pre (afterLabel ctx) s1 hpre rfl hloop
  have hstep : ∃ err, partStep ctx true d s1 = Except.error (err, s1) ∧
      (err = RunError.badLogicalFormat ∨
        err = RunError.logicalWithoutExtended) := by
    by_cases hsh : logicalShapeOk d.order = true
    · refine ⟨RunError.logicalWithoutExtended, ?_, Or.inr rfl⟩
      simp only [partStep, hL, PART_LOGICAL_EXTENDED_ALLOWED, Bool.not_true,
        Bool.false_eq_true, if_false, if_true, hsh, createLogicalPartition,
        hx1, if_pos]
    · have hsh' : logicalShapeOk d.order = false := by
        cases hv : logicalShapeOk d.order
        · rfl
        · exact absurd hv hsh
      refine ⟨RunError.badLogicalFormat, ?_, Or.inl rfl⟩
      simp only [partStep, hL, PART_LOGICAL_EXTENDED_ALLOWED, Bool.not_true,
        Bool.false_eq_true, if_false, if_true, hsh', Bool.not_false]
  obtain ⟨err, hstep, herr⟩ := hstep
  have hfull : partLoop ctx true (sortStably declLt ds) (afterLabel ctx) =
      Except.error (err, s1) := by
    rw [hsplit, partLoop_append, hloop]
    simp only [partLoop, hstep]
  have hdo : doPartitioning ctx true ds = Except.error (err, s1) := by
    have hdo2 : doPartitioning ctx true ds =
        match partLoop ctx true (sortStably declLt ds) (afterLabel ctx) with
        | Except.error e => Except.error e
        | Except.ok sB => Except.ok (postPhase ctx true sB) := by
      simp [doPartitioning, emit, initSt, horacle0, afterLabel]
    rw [hdo2, hfull]
  exact ⟨err, hdo, herr, by rw [hdo]; rfl⟩

/-- Witness for C4: a single well-shaped logical declaration with no
extended declaration anywhere. -/
theorem c4_logical_without_extended_witness :
    c4Prop ctxA dsLoneLogical (afterLabel ctxA) :=
  c4_logical_without_extended ctxA dsLoneLogical [] []
    ⟨"x", "1E:5L", "10", "ext2", []⟩ (afterLabel ctxA) (by rfl) (by rfl)
    (by intro e he; cases he) rfl (by rfl)

theorem partStep_false_fields (ctx : Ctx) (p : Decl) (s s' : St)
    (h : partStep ctx false p s = Except.ok s') :
    s'.trace = s.trace ∧ s'.swaps = s.swaps ∧
    s'.extensionStart = s.extensionStart ∧ s'.diskSwaps = s.diskSwaps := by
  simp only [partStep, Bool.false_eq_true, if_false] at h
  repeat' split at h
  all_goals first
    | (simp only [Except.ok.injEq] at h
       subst h
       simp [createPartitionEntry])
    | cases h

theorem partStep_reuse (ctx : Ctx) (p : Decl) (sB sB' sR : St)
    (hb : partStep ctx true p sB = Except.ok sB')
    (hpc : sR.primaryC = sB.primaryC) (_hlc : sR.logicalC = sB.logicalC)
    (hex : sR.extensionStart = -1) :
    ∃ sR', partStep ctx false p sR = Except.ok sR' := by
  by_cases hL : isLogicalTok p.order = true
  · have hsh : logicalShapeOk p.order = true := by
      by_contra hc
      have hsh' : logicalShapeOk p.order = false := by
        cases hv : logicalShapeOk p.order
        · rfl
        · exact absurd hv hc
      simp only [partStep, hL, PART_LOGICAL_EXTENDED_ALLOWED, Bool.not_true,
        Bool.false_eq_true, if_false, if_true, hsh', Bool.not_false] at hb
      cases hb
    simp only [partStep, hL, PART_LOGICAL_EXTENDED_ALLOWED, Bool.not_true,
      Bool.false_eq_true, if_false, if_true, hsh]
    exact ⟨_, rfl⟩
  · have hL' : isLogicalTok p.order = false := by
      cases hv : isLogicalTok p.order
      · rfl
      · exact absurd hv hL
    by_cases hE : isExtendedTok p.order = true
    · have hcap : ¬ sB.primaryC > PART_PRIMARY_PARTITIONS := by
        intro hgt
        simp only [partStep, hL', hE, PART_LOGICAL_EXTENDED_ALLOWED,
          Bool.not_true, Bool.false_eq_true, if_false, if_true, hgt] at hb
        cases hb
      have hlen2 : ¬ p.order.data.length < 2 := by
        intro hlt
        simp only [partStep, hL', hE, PART_LOGICAL_EXTENDED_ALLOWED,
          Bool.not_true, Bool.false_eq_true, if_false, if_true, hcap,
          hlt] at hb
        cases hb
      have hcapR : ¬ sR.primaryC > PART_PRIMARY_PARTITIONS := by
        rw [hpc]
        exact hcap
      simp only [partStep, hL', hE, PART_LOGICAL_EXTENDED_ALLOWED,
        Bool.not_true, Bool.false_eq_true, if_false, if_true, hcapR, hlen2,
        hex]
      simp
    · have hE' : isExtendedTok p.order = false := by
        cases hv : isExtendedTok p.order
        · rfl
        · exact absurd hv hE
      have hcap : ¬ sB.primaryC > PART_PRIMARY_PARTITIONS := by
        intro hgt
        simp only [partStep, hL', hE', Bool.false_eq_true, if_false,
          hgt, if_true] at hb
        cases hb
      have hcapR : ¬ sR.primaryC > PART_PRIMARY_PARTITIONS := by
        rw [hpc]
        exact hcap
      simp only [partStep, hL', hE', Bool.false_eq_true, if_false, hcapR]
      exact ⟨_, rfl⟩

theorem partLoop_reuse (ctx : Ctx) :
    ∀ (parts : List Decl) (sB sB' sR : St),
      partLoop ctx true parts sB = Except.ok sB' →
      sR.primaryC = sB.primaryC → sR.logicalC = sB.logicalC →
      sR.extensionStart = -1 →
      ∃ sR', partLoop ctx false parts sR = Except.ok sR' ∧
        sR'.trace = sR.trace ∧ sR'.swaps = sR.swaps := by
  intro parts
  induction parts with
  | nil =>
    intro sB sB' sR _ _ _ _
    exact ⟨sR, rfl, rfl, rfl⟩
  | cons p ps ih =>
    intro sB sB' sR h hpc hlc hex
    simp only [partLoop] at h ⊢
    split at h
    case _ e heq => cases h
    case _ sB1 heq =>
      obtain ⟨sR1, hstep⟩ := partStep_reuse ctx p sB sB1 sR heq hpc hlc hex
      obtain ⟨htr1, hsw1, hx1, _⟩ := partStep_false_fields ctx p sR sR1 hstep
      obtain ⟨_, hpB, hlB⟩ := partStep_ok ctx true p sB sB1 heq
      obtain ⟨_, hpR, hlR⟩ := partStep_ok ctx false p sR sR1 hstep
      obtain ⟨sR', hrest, htr, hsw⟩ := ih sB1 sB' sR1 h
        (by rw [hpR, hpB, hpc]) (by rw [hlR, hlB, hlc]) (by rw [hx1, hex])
      rw [hstep]
      exact ⟨sR', hrest, by rw [htr, htr1], by rw [hsw, hsw1]⟩

theorem PART_FSTYPES_swap_key (t v : String)
    (h : List.lookup t PART_FSTYPES = some v) (hv : v = "linux-swap") :
    t = "linux-swap" := by
  subst hv
  simp only [PART_FSTYPES, List.lookup] at h
  repeat' split at h
  all_goals simp_all

theorem fstype_ne_swap (pt : String) (p : Decl)
    (hne : p.typ ≠ "linux-swap") :
    ((if (pt == "extended") = true then "ext2"
      else (List.lookup p.typ PART_FSTYPES).getD ("ext2")) ==
        "linux-swap") = false := by
  split
  · decide
  · cases hl : List.lookup p.typ PART_FSTYPES with
    | none => simp
    | some v =>
      simp only [Option.getD_some]
      by_contra hc
      have hv : v = "linux-swap" := by
        rw [Bool.not_eq_false, beq_iff_eq] at hc
        exact hc
      exact hne (PART_FSTYPES_swap_key p.typ v hl hv)

theorem createNext_swaps (ctx : Ctx) (n : Nat) (pt : String) (p : Decl)
    (a b : Int) (s s' : St) (hne : p.typ ≠ "linux-swap")
    (h : createNextPartition ctx n pt p a b s = Except.ok s') :
    s'.swaps = s.swaps := by
  simp only [createNextPartition, emit] at h
  split at h
  · cases h
  · split at h
    case _ e heq => cases h
    case _ s3 heq =>
      have hsw3 := (applyFlags_fields ctx n p.flags _ _ heq).2.2.2.2.2.2.1
      simp only [Except.ok.injEq] at h
      subst h
      rw [fstype_ne_swap pt p hne]
      simp only [Bool.false_eq_true, if_false]
      split
      · simp only [editPartitionWithSfdisk, emit]
        split <;> simp_all [warn]
      · simp_all

theorem createPrimary_swaps (ctx : Ctx) (n : Nat) (p : Decl) (s s' : St)
    (hne : p.typ ≠ "linux-swap")
    (h : createPrimaryPartition ctx n p s = Except.ok s') :
    s'.swaps = s.swaps := by
  simp only [createPrimaryPartition] at h
  split at h
  · cases h
  · split at h
    case _ e heq => cases h
    case _ s1 heq =>
      have hsw := createNext_swaps _ _ _ _ _ _ _ _ hne heq
      simp only [Except.ok.injEq] at h
      subst h
      show s1.swaps = s.swaps
      rw [hsw]
      repeat' split
      all_goals rfl

theorem createExtended_swaps (ctx : Ctx) (n : Nat) (p : Decl) (s s' : St)
    (hne : p.typ ≠ "linux-swap")
    (h : createExtendedPartition ctx n p s = Except.ok s') :
    s'.swaps = s.swaps := by
  simp only [createExtendedPartition] at h
  split at h
  · cases h
  · split at h
    case _ e heq => cases h
    case _ s1 heq =>
      have hsw := createNext_swaps _ _ _ _ _ _ _ _ hne heq
      simp only [Except.ok.injEq] at h
      subst h
      show s1.swaps = s.swaps
      rw [hsw]
      repeat' split
      all_goals rfl

theorem createLogical_swaps (ctx : Ctx) (n : Nat) (p : Decl) (s s' : St)
    (hne : p.typ ≠ "linux-swap")
    (h : createLogicalPartition ctx n p s = Except.ok s') :
    s'.swaps = s.swaps := by
  simp only [createLogicalPartition] at h
  split at h
  · cases h
  · split at h
    · cases h
    · split at h
      case _ e heq => cases h
      case _ s1 heq =>
        have hsw := createNext_swaps _ _ _ _ _ _ _ _ hne heq
        simp only [Except.ok.injEq] at h
        subst h
        show s1.swaps = s.swaps
        rw [hsw]
        repeat' split
        all_goals rfl

theorem partStep_swaps (ctx : Ctx) (build : Bool) (p : Decl) (s s' : St)
    (hne : p.typ ≠ "linux-swap")
    (h : partStep ctx build p s = Except.ok s') :
    s'.swaps = s.swaps := by
  simp only [partStep] at h
  repeat' split at h
  all_goals first
    | (rename_i s1 heq
       simp only [Except.ok.injEq] at h
       subst h
       cases build with
       | false =>
         simp only [Bool.false_eq_true, if_false, Except.ok.injEq] at heq
         subst heq
         simp [createPartitionEntry]
       | true =>
         simp only [if_true] at heq
         simp [createPartitionEntry]
         first
           | exact createLogical_swaps _ _ _ _ _ hne heq
           | exact createExtended_swaps _ _ _ _ _ hne heq
           | exact createPrimary_swaps _ _ _ _ _ hne heq)
    | cases h

theorem partLoop_swaps (ctx : Ctx) (build : Bool) :
    ∀ (parts : List Decl) (s s' : St),
      (∀ d ∈ parts, d.typ ≠ "linux-swap") →
      partLoop ctx build parts s = Except.ok s' →
      s'.swaps = s.swaps := by
  intro parts
  induction parts with
  | nil =>
    intro s s' _ h
    simp only [partLoop, Except.ok.injEq] at h
    subst h
    rfl
  | cons p ps ih =>
    intro s s' hall h
    simp only [partLoop] at h
    split at h
    case _ e heq => cases h
    case _ s1 heq =>
      rw [ih s1 s' (fun d hd => hall d (List.mem_cons_of_mem p hd)) h]
      exact partStep_swaps ctx build p s s1
        (hall p (List.mem_cons_self p ps)) heq

/-- C5 (amended): a reuse run over the same declarations as a completed
build run yields records identical in number, size and device — and
identical outright when no linux-swap declaration is present.  (The
fstab id of a swap partition differs: only the build-mode swap pass
relabels it, because `self.swaps` is only populated by the build-mode
tool calls.) -/
theorem c5_reuse_matches_build_amended (ctx : Ctx) (ds : List Decl)
    (sB : St) (h : doPartitioning ctx true ds = Except.ok sB) :
    c5Prop ctx ds sB := by
  obtain ⟨sA, sB0, hAe, hAp, hAl, hAx, hAs, hloop, hpost⟩ :=
    doPartitioning_ok_inv ctx true ds sB h
  obtain ⟨sR0, hloopR, htrR, hswR⟩ := partLoop_reuse ctx _ sA sB0 initSt
    hloop (by rw [hAp]; rfl) (by rw [hAl]; rfl) rfl
  have hdoR : doPartitioning ctx false ds =
      Except.ok (postPhase ctx false sR0) := by
    simp only [doPartitioning, Bool.false_eq_true, if_false]
    rw [hloopR]
  obtain ⟨heB, _, _⟩ := partLoop_ok ctx true _ sA sB0 hloop
  obtain ⟨heR, _, _⟩ := partLoop_ok ctx false _ initSt sR0 hloopR
  rw [hAe, hAp, hAl] at heB
  simp only [List.nil_append] at heB
  have heR' : sR0.entries =
      entriesFor ctx.device ctx.diskFstabId (sortStably declLt ds) 1 5 := by
    rw [heR]
    simp [initSt]
  refine ⟨postPhase ctx false sR0, hdoR, ?_, ?_⟩
  · rw [hpost, postPhase_stripF, postPhase_stripF, heB, heR']
  · intro hns
    have hswB : sB0.swaps = [] := by
      rw [partLoop_swaps ctx true _ sA sB0
        (fun d hd => hns d ((sortStably_perm declLt ds).mem_iff.mp hd))
        hloop, hAs]
    have hswR0 : sR0.swaps = [] := by
      rw [hswR]
      rfl
    rw [hpost, postPhase_entries_noswaps _ _ _ hswB,
      postPhase_entries_noswaps _ _ _ hswR0, heB, heR']

/-- Counterexample for C5 as stated: for a linux-swap declaration on a
plain disk, the build run relabels the record's fstab id to
`LABEL=sw` in the swap pass, while the reuse run leaves the derived
`/dev/sda1` — the records are not identical. -/
theorem c5_counterexample :
    List.lookup ("sw") (runEntries (doPartitioning ctxA true dsSwap)) =
      some ⟨1, "10", "/dev/sda1", some ("LABEL=sw")⟩ ∧
    List.lookup ("sw") (runEntries (doPartitioning ctxA false dsSwap)) =
      some ⟨1, "10", "/dev/sda1", some ("/dev/sda1")⟩ ∧
    runEntries (doPartitioning ctxA true dsSwap) ≠
      runEntries (doPartitioning ctxA false dsSwap) := by
  decide

/-- Witness for C5 (amended): the mixed declaration set. -/
theorem c5_reuse_matches_build_amended_witness :
    c5Prop ctxA dsMixed (okState (doPartitioning ctxA true dsMixed)) :=
  c5_reuse_matches_build_amended ctxA dsMixed
    (okState (doPartitioning ctxA true dsMixed)) (by rfl)

theorem applyFlags_trace (ctx : Ctx) (n : Nat)
    (hor : ∀ m, ctx.oracle m = true) :
    ∀ fs s, ∃ s', applyFlags ctx n fs s = Except.ok s' ∧
      s'.trace = s.trace ++ fs.map (Call.setFlag ctx.device n) := by
  intro fs
  induction fs with
  | nil => intro s; exact ⟨s, rfl, by simp⟩
  | cons f fs ih =>
    intro s
    simp only [applyFlags, emit, hor, if_true]
    obtain ⟨s', h1, h2⟩ := ih { s with trace := s.trace ++ [Call.setFlag ctx.device n f] }
    exact ⟨s', h1, by simp only [h2]; simp⟩

theorem applyFlags_fail (ctx : Ctx) (n : Nat) :
    ∀ fs s, (∃ j, j < fs.length ∧
      ctx.oracle (s.trace.length + j) = false) →
      ∃ s', applyFlags ctx n fs s = Except.error (RunError.toolFailure, s') := by
  intro fs
  induction fs with
  | nil =>
    intro s h
    obtain ⟨j, hj, _⟩ := h
    simp at hj
  | cons f fs ih =>
    intro s h
    simp only [applyFlags, emit]
    by_cases h0 : ctx.oracle s.trace.length = true
    · rw [if_pos h0]
      apply ih
      obtain ⟨j, hj, hf⟩ := h
      cases j with
      | zero =>
        simp at hf
        rw [h0] at hf
        cases hf
      | succ j' =>
        refine ⟨j', ?_, ?_⟩
        · simp only [List.length_cons] at hj
          omega
        · simp only [List.length_append, List.length_cons,
            List.length_nil]
          have : s.trace.length + 1 + j' = s.trace.length + (j' + 1) := by
            omega
          rw [this]
          exact hf
    · rw [if_neg h0]
      exact ⟨_, rfl⟩

theorem createNext_flags_each (ctx : Ctx) (n : Nat) (pt : String)
    (p : Decl) (a b : Int) (s s' : St) (hor : ∀ m, ctx.oracle m = true)
    (h : createNextPartition ctx n pt p a b s = Except.ok s') :
    ∃ fsA rest, (rest = [] ∨ rest = [Call.sfdiskType ctx.device n p.typ]) ∧
      s'.trace = s.trace ++
        [Call.mkpart ctx.device pt fsA a b,
          Call.nameCall ctx.device n p.name] ++
        p.flags.map (Call.setFlag ctx.device n) ++ rest := by
  simp only [createNextPartition, emit, hor, Bool.not_true,
    Bool.false_eq_true, if_false] at h
  split at h
  case _ e heq => cases h
  case _ s3 heq =>
    obtain ⟨s3', h3, ht3⟩ := applyFlags_trace ctx n hor p.flags _
    rw [h3, Except.ok.injEq] at heq
    subst heq
    simp only [Except.ok.injEq] at h
    subst h
    refine ⟨if (pt == "extended") = true then none
        else some (if (pt == "extended") = true then "ext2"
          else (List.lookup p.typ PART_FSTYPES).getD ("ext2")),
      if (!(pt == "extended") &&
          (List.lookup p.typ PART_FSTYPES).isNone) = true then
        [Call.sfdiskType ctx.device n p.typ] else [], ?_, ?_⟩
    · split
      · exact Or.inr rfl
      · exact Or.inl rfl
    · repeat' split
      all_goals simp_all [editPartitionWithSfdisk, emit, warn,
        List.append_assoc]

theorem createNext_flag_fail (ctx : Ctx) (n : Nat) (pt : String)
    (p : Decl) (a b : Int) (s : St)
    (h1 : ctx.oracle s.trace.length = true)
    (hj : ∃ j, j < p.flags.length ∧
      ctx.oracle (s.trace.length + 2 + j) = false) :
    ∃ s', createNextPartition ctx n pt p a b s =
      Except.error (RunError.toolFailure, s') := by
  simp only [createNextPartition, emit, h1, Bool.not_true,
    Bool.false_eq_true, if_false]
  obtain ⟨s', hfail⟩ := applyFlags_fail ctx n p.flags
    { s with trace := s.trace ++ [Call.mkpart ctx.device pt
        (if (pt == "extended") = true then none
         else some (if (pt == "extended") = true then "ext2"
           else (List.lookup p.typ PART_FSTYPES).getD ("ext2"))) a b] ++
      [Call.nameCall ctx.device n p.name] }
    (by
      obtain ⟨j, hjl, hjf⟩ := hj
      refine ⟨j, hjl, ?_⟩
      simp only [List.length_append, List.length_cons, List.length_nil]
      have : s.trace.length + 1 + 1 + j = s.trace.length + 2 + j := by
        omega
      rw [this]
      exact hjf)
  rw [hfail]
  exact ⟨s', rfl⟩

/-- C1 (failing input): on a 100-byte disk with a 10% primary, a 20%
extended and another 10% primary, the build run completes without any
error while `_createExtendedPartition` leaves `startPercent` at the
extended partition's own start, so the next primary is laid out at
`[10,20)` inside the extended partition's `[10,30)` — the extents
overlap (both contain percent 10: `10 < 20` and `10 < 30` is the
interval-intersection condition), contradicting the non-overlap
invariant and the module docstring's "top to bottom, no gaps". -/
theorem c1_extent_overlap_failing_input :
    runOk (doPartitioning ctxA true dsOverlap) = true ∧
    mkpartExtents (doPartitioning ctxA true dsOverlap) =
      [(("primary"), 0, 10), (("extended"), 10, 30), (("primary"), 10, 20)] ∧
    ((10 : Int) < 20 ∧ (10 : Int) < 30) := by
  decide

/-- Counterexample for C6 as stated: a request of twice the disk size
resolves to 200, outside `[1..100]` — the resolver never clamps from
above. -/
theorem c6_counterexample :
    getRequestedPercentage 2000 1000 = ⟨200, false⟩ ∧ ¬(200 ≤ 100) := by
  decide

/-- C6 (amended): the size resolver returns
`round(bytes*100/diskSizeBytes)` lifted to a minimum of 1 — with the
non-fatal warning exactly when the rounding gave 0 — and the result is
at least 1 always, bounded by 100 only when the request does not exceed
the disk size (there is no upper clamp). -/
theorem c6_size_resolver_amended (b d : Nat) (hd : 0 < d) :
    1 ≤ (getRequestedPercentage b d).percent ∧
    (pctRound b d = 0 → getRequestedPercentage b d = ⟨1, true⟩) ∧
    (0 < pctRound b d →
      getRequestedPercentage b d = ⟨pctRound b d, false⟩) ∧
    (b ≤ d → (getRequestedPercentage b d).percent ≤ 100) := by
  refine ⟨?_, ?_, ?_, ?_⟩
  · simp only [getRequestedPercentage]
    split
    · rfl
    · rename_i hne
      show 1 ≤ pctRound b d
      omega
  · intro h0
    simp [getRequestedPercentage, h0]
  · intro hpos
    simp only [getRequestedPercentage]
    rw [if_neg (by omega)]
  · intro hbd
    have h2 : 0 < 2 * d := by omega
    have hr : pctRound b d ≤ 100 := by
      simp only [pctRound]
      have := (Nat.div_lt_iff_lt_mul h2).mpr
        (show 200 * b + d < 101 * (2 * d) by omega)
      omega
    simp only [getRequestedPercentage]
    split
    · show (1 : Nat) ≤ 100
      decide
    · simpa using hr

/-- Witness for C6 (amended): a 1 MiB request on a 1 TiB disk rounds to
0 and is lifted to 1 with the warning. -/
theorem c6_size_resolver_amended_witness :
    pctRound (2 ^ 20) (2 ^ 40) = 0 ∧
    getRequestedPercentage (2 ^ 20) (2 ^ 40) = ⟨1, true⟩ :=
  ⟨by decide, (c6_size_resolver_amended (2 ^ 20) (2 ^ 40)
    (by decide)).2.1 (by decide)⟩

/-- Counterexample for C7 as stated: with a stable disk reference
(`UUID=abc`, which contains `=`), the partition's fstab id is left
`None` — not a derived numbered reference; and with a plain reference
(`/dev/sda`, no `=`), the fstab id is the derived numbered
`/dev/sda1`, not the disk's id propagated unchanged. -/
theorem c7_counterexample :
    (mkPartitionEntry dW 1 ("/dev/sda") ("UUID=abc")).fstabId = none ∧
    ((mkPartitionEntry dW 1 ("/dev/sda") ("UUID=abc")).fstabId).isSome =
      false ∧
    (mkPartitionEntry dW 1 ("/dev/sda") ("/dev/sda")).fstabId =
      some ("/dev/sda1") ∧
    ¬((mkPartitionEntry dW 1 ("/dev/sda") ("/dev/sda")).fstabId =
      some ("/dev/sda")) := by
  decide

/-- C7 (amended): when the disk's fstab id is not a stable external
reference (no `=`), the partition's fstab id is the derived numbered
reference — the disk id suffixed with the partition number, with a `p`
separator when the id mentions a loop device; when the disk id contains
`=`, the partition's fstab id is left unset (`None`, the source's open
TODO), pending the swap or filesystem labeling passes. -/
theorem c7_fstab_id_amended (p : Decl) (n : Nat) (dev dfid : String)
    (hn : 0 < n) :
    (pyIn ("=") dfid = false →
      (mkPartitionEntry p n dev dfid).fstabId =
        some (dfid ++ (if pyIn ("loop") dfid then "p" else "") ++
          toString n)) ∧
    (pyIn ("=") dfid = true →
      (mkPartitionEntry p n dev dfid).fstabId = none) := by
  constructor
  · intro hne
    simp [mkPartitionEntry, hn, hne]
  · intro heq
    simp [mkPartitionEntry, heq]

/-- Witness for C7 (amended): a loop-device fstab id gives the
`p`-separated numbered reference; a `UUID=` id gives `None`. -/
theorem c7_fstab_id_amended_witness :
    (mkPartitionEntry dW 3 ("/dev/loop7") ("/dev/loop7")).fstabId =
      some ("/dev/loop7p3") ∧
    (mkPartitionEntry dW 3 ("/dev/loop7") ("UUID=x")).fstabId = none := by
  constructor
  · rw [(c7_fstab_id_amended dW 3 ("/dev/loop7") ("/dev/loop7")
      (by decide)).1 (by decide)]
    decide
  · exact (c7_fstab_id_amended dW 3 ("/dev/loop7") ("UUID=x")
      (by decide)).2 (by decide)

/-- Counterexample for C8 as stated: with the flag-setting call (the
fourth call: mklabel, mkpart, name, set) exiting non-zero, the whole
disk build aborts with the tool failure — the flag call is
`check_call`, not best-effort. -/
theorem c8_counterexample :
    runErr (doPartitioning ctxFlagFail true dsFlag) =
      some RunError.toolFailure ∧
    runTrace (doPartitioning ctxFlagFail true dsFlag) =
      [Call.mklabel ("/dev/sda") ("msdos"),
       Call.mkpart ("/dev/sda") ("primary") (some ("ext2")) 0 10,
       Call.nameCall ("/dev/sda") 1 ("r"),
       Call.setFlag ("/dev/sda") 1 ("boot")] := by
  decide

/-- C8 (amended): every flag is applied with its own
`set <number> <flag> on` call — after the mkpart and naming calls and
before the optional sfdisk type call — but a non-zero exit of any
flag-setting call raises `CalledProcessError` and aborts the disk
build (the flag calls are must-succeed, unlike naming and the sfdisk
type call, which are best-effort). -/
theorem c8_flag_calls_amended :
    (∀ (ctx : Ctx) (n : Nat) (pt : String) (p : Decl) (a b : Int)
      (s s' : St), (∀ m, ctx.oracle m = true) →
      createNextPartition ctx n pt p a b s = Except.ok s' →
      ∃ fsA rest,
        (rest = [] ∨ rest = [Call.sfdiskType ctx.device n p.typ]) ∧
        s'.trace = s.trace ++
          [Call.mkpart ctx.device pt fsA a b,
            Call.nameCall ctx.device n p.name] ++
          p.flags.map (Call.setFlag ctx.device n) ++ rest) ∧
    (∀ (ctx : Ctx) (n : Nat) (pt : String) (p : Decl) (a b : Int) (s : St),
      ctx.oracle s.trace.length = true →
      (∃ j, j < p.flags.length ∧
        ctx.oracle (s.trace.length + 2 + j) = false) →
      ∃ s', createNextPartition ctx n pt p a b s =
        Except.error (RunError.toolFailure, s')) :=
  ⟨fun ctx n pt p a b s s' hor h =>
    createNext_flags_each ctx n pt p a b s s' hor h,
   fun ctx n pt p a b s h1 hj =>
    createNext_flag_fail ctx n pt p a b s h1 hj⟩

/-- Witness for C8 (amended): the flagged declaration's partition call
sequence under an all-succeeding oracle, and the abort when the flag
call (index 3 of the trace) fails. -/
theorem c8_flag_calls_amended_witness :
    (∃ fsA rest,
      (rest = [] ∨ rest = [Call.sfdiskType ctxA.device 1 dFlag.typ]) ∧
      (okState (createNextPartition ctxA 1 ("primary") dFlag 0 10
        (afterLabel ctxA))).trace = (afterLabel ctxA).trace ++
        [Call.mkpart ctxA.device ("primary") fsA 0 10,
          Call.nameCall ctxA.device 1 dFlag.name] ++
        dFlag.flags.map (Call.setFlag ctxA.device 1) ++ rest) ∧
    (∃ s', createNextPartition ctxFlagFail 1 ("primary") dFlag 0 10
      (afterLabel ctxFlagFail) =
        Except.error (RunError.toolFailure, s')) :=
  ⟨c8_flag_calls_amended.1 ctxA 1 ("primary") dFlag 0 10 (afterLabel ctxA)
    (okState (createNextPartition ctxA 1 ("primary") dFlag 0 10
      (afterLabel ctxA))) (fun _ => rfl) (by rfl),
   c8_flag_calls_amended.2 ctxFlagFail 1 ("primary") dFlag 0 10
    (afterLabel ctxFlagFail) (by decide) ⟨0, by decide, by decide⟩⟩

/-- C9: the record's device path is the disk device string suffixed
with the partition number, with a `p` infix exactly when the device
mentions a loop device (the Python test `'loop' in device`). -/
theorem c9_device_suffix (p : Decl) (n : Nat) (dev dfid : String)
    (hn : 0 < n) :
    (mkPartitionEntry p n dev dfid).device =
      dev ++ (if pyIn ("loop") dev then "p" else "") ++ toString n ∧
    (pyIn ("loop") dev = true →
      (mkPartitionEntry p n dev dfid).device = dev ++ "p" ++ toString n) ∧
    (pyIn ("loop") dev = false →
      (mkPartitionEntry p n dev dfid).device = dev ++ toString n) := by
  refine ⟨?_, ?_, ?_⟩
  · simp [mkPartitionEntry, hn]
  · intro hl
    simp [mkPartitionEntry, hn, hl]
  · intro hl
    simp [mkPartitionEntry, hn, hl]

/-- Witness for C9: `/dev/loop0` yields `/dev/loop0p1`, `/dev/sda`
yields `/dev/sda1`. -/
theorem c9_device_suffix_witness :
    (mkPartitionEntry dW 1 ("/dev/loop0") ("/dev/loop0")).device =
      "/dev/loop0p1" ∧
    (mkPartitionEntry dW 1 ("/dev/sda") ("/dev/sda")).device =
      "/dev/sda1" := by
  constructor
  · rw [(c9_device_suffix dW 1 ("/dev/loop0") ("/dev/loop0")
      (by decide)).2.1 (by decide)]
    decide
  · rw [(c9_device_suffix dW 1 ("/dev/sda") ("/dev/sda")
      (by decide)).2.2 (by decide)]
    decide

/-- Counterexample for C10 as stated: `"/"` splits into two empty
components, giving it sort key 2 — the same as `"/boot"` — so with the
option order `["/boot", "/"]` the stable sort keeps `"/boot"` first and
the root mount point is not processed before it. -/
theorem c10_counterexample :
    fsMountOrder [("/boot"), ("/")] = [("/boot"), ("/")] ∧
    mountKey ("/") = 2 ∧ mountKey ("/boot") = 2 ∧
    (fsMountOrder [("/boot"), ("/")]).head? = some ("/boot") := by
  decide

/-- C10 (amended): the filesystem layer processes the mount-point
options in non-decreasing order of `len(x.split('/'))` (a stable sort
of the `/`-prefixed keys), so strictly deeper mount points come later;
but `"/"` has the same component count (2) as single-level mount points
such as `"/boot"`, so among those the original option order decides and
`"/"` is not guaranteed to be processed first. -/
theorem c10_mount_order_amended (keys : List String) :
    List.Pairwise (fun a b => mountLt b a = false) (fsMountOrder keys) ∧
    List.Perm (fsMountOrder keys)
      (keys.filter fun x => x.data.head? == some '/') := by
  constructor
  · exact sortStably_pairwise mountLt mountLt_asymm mountLt_negtrans _
  · exact sortStably_perm mountLt _

end CsmakeSystemBuild
